import Mathlib

/-!
Verification development for the CircuPlay circuit sandbox.

The repository ships its engine in three relevant files:
* the component data model (`Component`, `LogicGate` and its six concrete
  gates, `ComponentFactory`) — embedded below as `ComponentType`, `Component`,
  `calculate`, `updateComp`;
* the grid spatial index (`js/grid.js`) — embedded as `Grid` with
  `placeComponent`, `removeComponent`, `getComponent`;
* the simulator (`CircuitSimulator`) — embedded as `Circuit` with
  `updateCircuit` and its phases.

JavaScript objects are mutated in place and shared by reference between the
grid cells and the simulator's lists.  The simulator embedding models this
aliasing by storing component ids in grid cells and keeping the component
records in the simulator's `comps` list (the heap); mutating a component is
replacing its record by id.  The grid embedding used for the pure grid
claims stores the (already updated) component record in each covered cell,
which is observationally the same as the shared reference because the grid
operations under study perform no further mutation between the write and
the read.
-/

namespace CircuPlay

/-- The component kinds of the factory, plus the `push-button` and `buzzer`
kind strings that the simulator's conduction tables mention. -/
inductive ComponentType where
  | battery | led | resistor | switch | wire
  | pushButton | buzzer
  | andGate | orGate | notGate | xorGate | nandGate | norGate
  deriving DecidableEq, Repr

/-- A placed component.  Fields follow the `Component` base class and the
`LogicGate` subclass: pixel position `x`,`y`, grid origin `gridX`,`gridY`,
grid footprint `gridW`,`gridH` (`gridWidth`/`gridHeight`; 1 by default, 1x2
for logic gates), the `powered` flag, the switch `closed` flag, and the
gate `inputs`/`output` state.  The rendering-only fields (`width`, `height`,
`color`, `voltage`, `connections`) play no role in the engine and are
omitted. -/
structure Component where
  id : Nat
  ctype : ComponentType
  x : Int := 0
  y : Int := 0
  gridX : Int := 0
  gridY : Int := 0
  gridW : Nat := 1
  gridH : Nat := 1
  powered : Bool := false
  closed : Bool := false
  inputs : List Bool := []
  output : Bool := false
  deriving DecidableEq, Repr

/-- Is the component one of the six `LogicGate` subclasses
(`instanceof LogicGate`)? -/
def isLogicGate (t : ComponentType) : Bool :=
  match t with
  | .andGate | .orGate | .notGate | .xorGate | .nandGate | .norGate => true
  | _ => false

/-- The per-kind `calculate` methods of the gate classes.  Non-gate kinds
fall back to the base-class `calculate`, which returns false. -/
def calculate (t : ComponentType) (inputs : List Bool) : Bool :=
  match t with
  | .andGate => if inputs.length < 2 then false else inputs.getD 0 false && inputs.getD 1 false
  | .orGate => if inputs.length < 1 then false else inputs.any (fun b => b)
  | .notGate => if inputs.length > 0 then !(inputs.getD 0 false) else false
  | .xorGate => if inputs.length < 2 then false else inputs.getD 0 false != inputs.getD 1 false
  | .nandGate => if inputs.length < 2 then true else !(inputs.getD 0 false && inputs.getD 1 false)
  | .norGate => if inputs.length < 2 then true else !(inputs.getD 0 false || inputs.getD 1 false)
  | _ => false

/-- The `update` method: batteries force `powered = true`; an open switch
clears `powered`; a logic gate recomputes `output` from `inputs` and mirrors
it into `powered`; every other kind inherits the no-op base `update`.
The `push-button` kind has no class in the sources; modelled from the spec:
like a switch, it clears `powered` when open. -/
def updateComp (c : Component) : Component :=
  match c.ctype with
  | .battery => { c with powered := true }
  | .switch => if c.closed then c else { c with powered := false }
  | .pushButton => if c.closed then c else { c with powered := false }
  | t => if isLogicGate t then
           let out := calculate t c.inputs
           { c with output := out, powered := out }
         else c

/-- The simulator state: the grid it holds a reference to (dimensions in
cells plus the cell contents, as component ids), the insertion-ordered
component list, and the cached power-source id list. -/
structure Circuit where
  cols : Nat
  rows : Nat
  cellFn : Int → Int → Option Nat
  comps : List Component
  powerSources : List Nat

/-- Heap lookup: the component record with the given id. -/
def lookupC (st : Circuit) (cid : Nat) : Option Component :=
  st.comps.find? (fun c => c.id == cid)

/-- `Grid.getComponent` as used by the simulator: bounds check, then the
cell entry. -/
def getCellId (st : Circuit) (x y : Int) : Option Nat :=
  if 0 ≤ x ∧ x < (st.cols : Int) ∧ 0 ≤ y ∧ y < (st.rows : Int) then st.cellFn x y else none

/-- `CircuitSimulator.canConduct`.  Note that the `xor-gate`, `nand-gate`
and `nor-gate` kinds fall through to the default case and do not conduct. -/
def canConduct (c : Component) : Bool :=
  match c.ctype with
  | .wire => true
  | .resistor => true
  | .led => true
  | .switch => c.closed
  | .pushButton => c.closed
  | .buzzer => true
  | .andGate | .orGate | .notGate => true
  | .battery => true
  | _ => false

/-- `CircuitSimulator.shouldPropagate`. -/
def shouldPropagate (c : Component) : Bool :=
  match c.ctype with
  | .wire => true
  | .switch => c.closed
  | .pushButton => c.closed
  | .resistor => true
  | .andGate | .orGate | .notGate => c.output
  | _ => false

/-- `Grid.getNeighbors` cell offsets, in the fixed left, right, up, down
order. -/
def neighborCells (x y : Int) : List (Int × Int) :=
  [(x - 1, y), (x + 1, y), (x, y - 1), (x, y + 1)]

/-- The ids of the occupants of the four neighbor cells. -/
def getNeighborIds (st : Circuit) (x y : Int) : List Nat :=
  (neighborCells x y).filterMap (fun p => getCellId st p.1 p.2)

/-- The successor ids examined by one activation of `propagatePower` on the
component `cid`: the four grid neighbors of its origin cell, followed by —
when the source is a logic gate with a true output — the occupant of the
output cell `(gridX + 1, gridY + 1)`. -/
def succIds (st : Circuit) (cid : Nat) : List Nat :=
  match lookupC st cid with
  | none => []
  | some c =>
      getNeighborIds st c.gridX c.gridY ++
        (if isLogicGate c.ctype && c.output then (getCellId st (c.gridX + 1) (c.gridY + 1)).toList
         else [])

/-- One neighbor step of `propagatePower`, parameterised by the recursive
call `rec`.  The state is the pair (visited id list, newly powered id
list); the circuit's static data (grid, `closed`, `output`) is never
modified by propagation, so it is read from `st` throughout. -/
def propStepF (st : Circuit) (rec : Nat → List Nat × List Nat → List Nat × List Nat)
    (t : List Nat × List Nat) (v : Nat) : List Nat × List Nat :=
  match lookupC st v with
  | none => t
  | some c =>
      if v ∈ t.1 ∨ canConduct c = false then t
      else
        let t' := (t.1, v :: t.2)
        if shouldPropagate c then rec v t' else t'

/-- `CircuitSimulator.propagatePower`, with an explicit recursion budget
`fuel`.  Each recursive call is made on a component that is not yet
visited and is then immediately added to the visited set, so a budget of
`comps.length + 1` always suffices (proved below). -/
def propagatePower (st : Circuit) (fuel : Nat) : Nat → List Nat × List Nat → List Nat × List Nat :=
  match fuel with
  | 0 => fun _ s => s
  | fuel + 1 => fun cid s =>
      if cid ∈ s.1 then s
      else (succIds st cid).foldl (propStepF st (propagatePower st fuel)) (cid :: s.1, s.2)

/-- The recursion budget used by the phases. -/
def ppFuel (st : Circuit) : Nat := st.comps.length + 1

/-- Replace every component record carrying the id of `c'` by `c'`
(mutating the shared object in place). -/
def replaceComp (st : Circuit) (c' : Component) : Circuit :=
  { st with comps := st.comps.map (fun d => if d.id = c'.id then c' else d) }

/-- Set `powered := true` on every component whose id was collected during
a propagation phase. -/
def applyPowered (st : Circuit) (pow : List Nat) : Circuit :=
  { st with comps := st.comps.map (fun c => if c.id ∈ pow then { c with powered := true } else c) }

/-- The live `powered` flag of the id `cid`. -/
def poweredOf (st : Circuit) (cid : Nat) : Bool :=
  match lookupC st cid with
  | some c => c.powered
  | none => false

/-- Phase 1 of `updateCircuit` on one record: every non-battery component
loses power, and logic gates additionally have their `inputs` cleared. -/
def resetComp (c : Component) : Component :=
  if c.ctype = .battery then c
  else { c with powered := false, inputs := if isLogicGate c.ctype then [] else c.inputs }

/-- Phase 1 of `updateCircuit`. -/
def resetPhase (st : Circuit) : Circuit :=
  { st with comps := st.comps.map resetComp }

/-- Phase 2 of `updateCircuit` over an explicit source id list: each source
whose live `powered` flag is true (its phase-start flag, or set by an
earlier source's propagation in this very phase) propagates with a fresh
visited set; the powered ids accumulate across the calls. -/
def propagateFromSources (st : Circuit) (srcs : List Nat) : List Nat :=
  srcs.foldl
    (fun acc s =>
      if poweredOf st s || s ∈ acc then (propagatePower st (ppFuel st) s ([], acc)).2 else acc)
    []

/-- Phase 2 of `updateCircuit`. -/
def sourcePropagationPhase (st : Circuit) : Circuit :=
  applyPowered st (propagateFromSources st st.powerSources)

/-- The two cells `updateLogicGates` reads for a gate anchored at
`(gx, gy)`: left of the top cell, and left of the cell two rows below it
(the code comments assume a 3-cell-tall gate and skip the middle row). -/
def gateInputReads (st : Circuit) (gid : Nat) (gx gy : Int) : List Bool :=
  ([(gx - 1, gy), (gx - 1, gy + 2)] : List (Int × Int)).filterMap
    (fun p =>
      match getCellId st p.1 p.2 with
      | some cid => if cid = gid then none else (lookupC st cid).map (fun c => c.powered)
      | none => none)

/-- One gate's slice of `updateLogicGates`: rebuild `inputs` from the two
designated cells, keep at most two of them, then run the gate's
`update`. -/
def processGate (st : Circuit) (gid : Nat) : Circuit :=
  match lookupC st gid with
  | none => st
  | some g =>
      let vals := gateInputReads st gid g.gridX g.gridY
      replaceComp st (updateComp { g with inputs := vals.take 2 })

/-- The ids of the logic gates in the component list, in list order. -/
def gateIds (st : Circuit) : List Nat :=
  (st.comps.filter (fun c => isLogicGate c.ctype)).map (fun c => c.id)

/-- Phase 3 of `updateCircuit`: `CircuitSimulator.updateLogicGates`. -/
def gateEvalPhase (st : Circuit) : Circuit :=
  (gateIds st).foldl processGate st

/-- Phase 4 of `updateCircuit`: every gate whose output is now true
propagates power from its id with a fresh visited set; the powered ids
accumulate and are applied at the end of the phase (propagation touches
only `powered` flags, which the phase itself never reads). -/
def gatePropagationPhase (st : Circuit) : Circuit :=
  applyPowered st
    ((st.comps.filter (fun c => isLogicGate c.ctype)).foldl
      (fun acc g => if g.output then (propagatePower st (ppFuel st) g.id ([], acc)).2 else acc)
      [])

/-- Phase 5 of `updateCircuit`: run `update` on every component. -/
def finalizePhase (st : Circuit) : Circuit :=
  { st with comps := st.comps.map updateComp }

/-- The simulator state after the gate evaluation phase of a tick. -/
def afterGateEval (st : Circuit) : Circuit :=
  gateEvalPhase (sourcePropagationPhase (resetPhase st))

/-- `CircuitSimulator.updateCircuit`: reset, source propagation, gate
evaluation, gate-output propagation, final update pass. -/
def updateCircuit (st : Circuit) : Circuit :=
  finalizePhase (gatePropagationPhase (afterGateEval st))

/-- `CircuitSimulator.addComponent`: append the component unless an
identical object is already listed; batteries are also appended to the
power-source cache. -/
def addComponent (st : Circuit) (c : Component) : Circuit :=
  if st.comps.any (fun d => d.id == c.id) then st
  else
    { st with
      comps := st.comps ++ [c],
      powerSources :=
        if c.ctype = .battery then st.powerSources ++ [c.id] else st.powerSources }

/-- `CircuitSimulator.removeComponent`: drop the first occurrence of the
component from the component list and from the power-source cache. -/
def removeComponent (st : Circuit) (cid : Nat) : Circuit :=
  { st with
    comps := st.comps.eraseP (fun d => d.id == cid),
    powerSources := st.powerSources.erase cid }

/-- A user-level simulator operation. -/
inductive SimOp where
  | add (c : Component)
  | remove (cid : Nat)
  deriving Repr

/-- Apply one operation. -/
def applySimOp (st : Circuit) (op : SimOp) : Circuit :=
  match op with
  | .add c => addComponent st c
  | .remove cid => removeComponent st cid

/-- Apply a list of operations in order. -/
def applySimOps (st : Circuit) (ops : List SimOp) : Circuit :=
  ops.foldl applySimOp st

/-- The simulator as built by its constructor: empty component and
power-source lists over the given grid. -/
def mkSimulator (cols rows : Nat) (cellFn : Int → Int → Option Nat) : Circuit :=
  { cols := cols, rows := rows, cellFn := cellFn, comps := [], powerSources := [] }

/-! ### The grid spatial index (`js/grid.js`)

For the pure grid claims the cells store the occupying component record
itself (the updated record that the shared reference observes once
`placeComponent` returns). -/

/-- The grid: cell counts, the pixel size of a cell, and the cell
contents. -/
structure Grid where
  gridSize : Nat
  cols : Nat
  rows : Nat
  cells : Int → Int → Option Component

namespace Grid

/-- `Grid.isValidPosition`. -/
def isValidPosition (g : Grid) (x y : Int) : Bool :=
  decide (0 ≤ x ∧ x < (g.cols : Int) ∧ 0 ≤ y ∧ y < (g.rows : Int))

/-- `Grid.isEmpty`: out-of-bounds cells count as non-empty. -/
def isEmpty (g : Grid) (x y : Int) : Bool :=
  if g.isValidPosition x y then (g.cells x y).isNone else false

/-- `Grid.isAreaEmpty`: every cell of the `w × h` rectangle anchored at
`(x, y)` is empty. -/
def isAreaEmpty (g : Grid) (x y : Int) (w h : Nat) : Bool :=
  (List.range h).all (fun j => (List.range w).all (fun i => g.isEmpty (x + i) (y + j)))

/-- Write one cell. -/
def setCell (g : Grid) (x y : Int) (v : Option Component) : Grid :=
  { g with cells := fun p q => if p = x ∧ q = y then v else g.cells p q }

/-- The JavaScript `component.gridWidth || 1` idiom: a missing or zero
dimension counts as 1. -/
def orOne (n : Nat) : Nat := if n = 0 then 1 else n

/-- Write the component into every cell of a `w × h` rectangle. -/
def writeRect (g : Grid) (x y : Int) (w h : Nat) (v : Option Component) : Grid :=
  (List.range h).foldl
    (fun acc (j : Nat) =>
      (List.range w).foldl
        (fun acc2 (i : Nat) => acc2.setCell (x + (i : Int)) (y + (j : Int)) v) acc) g

/-- `Grid.placeComponent`: fail without mutation when the footprint is not
fully inside the grid and empty; otherwise write the component reference
into every covered cell and update its stored grid and pixel
coordinates. -/
def placeComponent (g : Grid) (c : Component) (gx gy : Int) : Grid × Component × Bool :=
  let w := orOne c.gridW
  let h := orOne c.gridH
  if g.isAreaEmpty gx gy w h = false then (g, c, false)
  else
    let c' := { c with gridX := gx, gridY := gy, x := gx * (g.gridSize : Int), y := gy * (g.gridSize : Int) }
    (writeRect g gx gy w h (some c'), c', true)

/-- Clear the footprint of `c` (each cell guarded by a validity check), as
the removal loop does. -/
def clearFootprint (g : Grid) (c : Component) : Grid :=
  (List.range (orOne c.gridH)).foldl
    (fun acc (j : Nat) =>
      (List.range (orOne c.gridW)).foldl
        (fun acc2 (i : Nat) =>
          if acc2.isValidPosition (c.gridX + (i : Int)) (c.gridY + (j : Int))
          then acc2.setCell (c.gridX + (i : Int)) (c.gridY + (j : Int)) none else acc2) acc) g

/-- `Grid.removeComponent`: look up the occupant of the queried cell;
when present, clear every cell of the occupant's own stored footprint and
return it. -/
def removeComponent (g : Grid) (qx qy : Int) : Grid × Option Component :=
  if g.isValidPosition qx qy = false then (g, none)
  else
    match g.cells qx qy with
    | none => (g, none)
    | some c => (clearFootprint g c, some c)

/-- `Grid.getComponent`. -/
def getComponent (g : Grid) (x y : Int) : Option Component :=
  if g.isValidPosition x y then g.cells x y else none

end Grid

/-! ### Reachability through the conduction graph -/

/-- `Reach st root v`: starting from the component id `root`, the
propagation graph reaches `v` along a non-empty path in which every
intermediate component conducts and propagates further and the final
component `v` conducts.  Edges are the `succIds` relation: grid adjacency
plus the gate output cell. -/
inductive Reach (st : Circuit) (root : Nat) : Nat → Prop where
  | base {v : Nat} {c : Component} :
      v ∈ succIds st root → lookupC st v = some c → canConduct c = true → Reach st root v
  | step {u v : Nat} {cu cv : Component} :
      Reach st root u → lookupC st u = some cu → canConduct cu = true →
      shouldPropagate cu = true → v ∈ succIds st u →
      lookupC st v = some cv → canConduct cv = true → Reach st root v

/-! ### Generic fold helpers -/

/-- An invariant preserved by every step of a fold holds of the result. -/
theorem foldl_inv {α β : Type _} (step : α → β → α) (P : α → Prop) :
    ∀ (l : List β) (init : α), P init → (∀ t v, v ∈ l → P t → P (step t v)) →
      P (l.foldl step init) := by
  intro l
  induction l with
  | nil => intro init h _; exact h
  | cons v rest ih =>
      intro init h hstep
      exact ih (step init v) (hstep init v (List.mem_cons_self v rest) h)
        (fun t w hw ht => hstep t w (List.mem_cons_of_mem v hw) ht)

/-- Two folds agree when their steps agree on all states satisfying an
invariant that the first step preserves. -/
theorem foldl_congr_inv {α β : Type _} (P : α → Prop) (f g : α → β → α) :
    ∀ (l : List β) (init : α), P init →
      (∀ t v, v ∈ l → P t → f t v = g t v ∧ P (f t v)) →
      l.foldl f init = l.foldl g init := by
  intro l
  induction l with
  | nil => intro init _ _; rfl
  | cons v rest ih =>
      intro init h hstep
      obtain ⟨heq, hP⟩ := hstep init v (List.mem_cons_self v rest) h
      simp only [List.foldl_cons, heq]
      exact ih (g init v) (heq ▸ hP)
        (fun t w hw ht => hstep t w (List.mem_cons_of_mem v hw) ht)

/-- Componentwise containment on (visited, powered) states. -/
def SubSt (a b : List Nat × List Nat) : Prop := a.1 ⊆ b.1 ∧ a.2 ⊆ b.2

theorem SubSt.rfl {a : List Nat × List Nat} : SubSt a a := ⟨fun _ h => h, fun _ h => h⟩

theorem SubSt.trans {a b c : List Nat × List Nat} (h1 : SubSt a b) (h2 : SubSt b c) :
    SubSt a c := ⟨h1.1.trans h2.1, h1.2.trans h2.2⟩

/-- A fold whose step only grows the state grows the state. -/
theorem foldl_subSt (step : List Nat × List Nat → Nat → List Nat × List Nat)
    (hstep : ∀ t v, SubSt t (step t v)) :
    ∀ (l : List Nat) (init : List Nat × List Nat), SubSt init (l.foldl step init) := by
  intro l
  induction l with
  | nil => intro init; exact SubSt.rfl
  | cons v rest ih => intro init; exact (hstep init v).trans (ih (step init v))

/-! ### Heap lookup lemmas -/

theorem lookupC_mem {st : Circuit} {cid : Nat} {c : Component}
    (h : lookupC st cid = some c) : c ∈ st.comps ∧ c.id = cid := by
  refine ⟨List.mem_of_find?_eq_some h, ?_⟩
  have := List.find?_some h
  simpa using this

theorem lookupC_mem_ids {st : Circuit} {cid : Nat} {c : Component}
    (h : lookupC st cid = some c) : cid ∈ st.comps.map (fun c => c.id) := by
  obtain ⟨hm, hid⟩ := lookupC_mem h
  exact hid ▸ List.mem_map_of_mem _ hm

theorem find_id_of_mem_nodup {l : List Component} {c : Component}
    (hnd : (l.map (fun c => c.id)).Nodup) (hm : c ∈ l) :
    l.find? (fun d => d.id == c.id) = some c := by
  induction l with
  | nil => cases hm
  | cons d rest ih =>
      simp only [List.map_cons, List.nodup_cons] at hnd
      rcases List.mem_cons.mp hm with rfl | hm'
      · simp
      · have hne : (d.id == c.id) = false := by
          by_cases h : d.id = c.id
          · exact absurd (h ▸ List.mem_map_of_mem (fun c => c.id) hm') hnd.1
          · simpa using h
        rw [List.find?_cons_of_neg _ (by simp [hne]), ih hnd.2 hm']

theorem lookupC_of_mem_nodup {st : Circuit} {c : Component}
    (hnd : (st.comps.map (fun c => c.id)).Nodup) (hm : c ∈ st.comps) :
    lookupC st c.id = some c :=
  find_id_of_mem_nodup hnd hm

/-- Looking up after a map that preserves ids. -/
theorem lookupC_map {st : Circuit} {f : Component → Component} {cid : Nat}
    (hf : ∀ c, (f c).id = c.id) :
    lookupC { st with comps := st.comps.map f } cid = (lookupC st cid).map f := by
  unfold lookupC
  simp only []
  rw [List.find?_map]
  have hp : ((fun c : Component => c.id == cid) ∘ f) = (fun c : Component => c.id == cid) := by
    funext c
    simp [Function.comp, hf c]
  rw [hp]

/-! ### The unvisited-component count -/

/-- How many component ids are not yet in the visited list. -/
def unvisited (st : Circuit) (vis : List Nat) : Nat :=
  (st.comps.map (fun c => c.id)).countP (fun i => decide (i ∉ vis))

theorem unvisited_le (st : Circuit) (vis : List Nat) :
    unvisited st vis ≤ st.comps.length := by
  unfold unvisited
  calc (st.comps.map (fun c => c.id)).countP (fun i => decide (i ∉ vis))
      ≤ (st.comps.map (fun c => c.id)).length := List.countP_le_length _
    _ = st.comps.length := List.length_map _ _

theorem unvisited_anti (st : Circuit) {vis vis' : List Nat} (h : vis ⊆ vis') :
    unvisited st vis' ≤ unvisited st vis := by
  apply List.countP_mono_left
  intro i _ hi
  simp only [decide_eq_true_eq] at hi ⊢
  exact fun hmem => hi (h hmem)

theorem countP_notmem_le {vis vis' : List Nat} (h : vis ⊆ vis') (l : List Nat) :
    l.countP (fun i => decide (i ∉ vis')) ≤ l.countP (fun i => decide (i ∉ vis)) := by
  apply List.countP_mono_left
  intro i _ hi
  simp only [decide_eq_true_eq] at hi ⊢
  exact fun hmem => hi (h hmem)

theorem countP_notmem_cons_lt {l vis : List Nat} {a : Nat} (ha : a ∈ l) (hnv : a ∉ vis) :
    l.countP (fun i => decide (i ∉ a :: vis)) < l.countP (fun i => decide (i ∉ vis)) := by
  induction l with
  | nil => cases ha
  | cons b rest ih =>
      rw [List.countP_cons, List.countP_cons]
      have hle : rest.countP (fun i => decide (i ∉ a :: vis)) ≤
          rest.countP (fun i => decide (i ∉ vis)) :=
        countP_notmem_le (List.subset_cons_self a vis) rest
      rcases List.mem_cons.mp ha with rfl | hb
      · have h1 : (decide (a ∉ a :: vis)) = false := by simp
        have h2 : (decide (a ∉ vis)) = true := by simpa using hnv
        simp only [h1, h2]
        simp only [Bool.false_eq_true, if_false, if_true]
        omega
      · have hlt := ih hb
        by_cases hba : b = a
        · subst hba
          have h1 : (decide (b ∉ b :: vis)) = false := by simp
          have h2 : (decide (b ∉ vis)) = true := by simpa using hnv
          simp only [h1, h2]
          simp only [Bool.false_eq_true, if_false, if_true]
          omega
        · by_cases hbv : b ∈ vis
          · have h1 : (decide (b ∉ a :: vis)) = false := by simp [hbv]
            have h2 : (decide (b ∉ vis)) = false := by simp [hbv]
            simp only [h1, h2]
            simp only [Bool.false_eq_true, if_false]
            omega
          · have h1 : (decide (b ∉ a :: vis)) = true := by simp [hba, hbv]
            have h2 : (decide (b ∉ vis)) = true := by simpa using hbv
            simp only [h1, h2]
            simp only [if_true]
            omega

theorem unvisited_cons_lt {st : Circuit} {vis : List Nat} {cid : Nat}
    (hm : cid ∈ st.comps.map (fun c => c.id)) (hnv : cid ∉ vis) :
    unvisited st (cid :: vis) < unvisited st vis :=
  countP_notmem_cons_lt hm hnv

/-! ### Unfolding and monotonicity of `propagatePower` -/

theorem pp_zero (st : Circuit) (cid : Nat) (s : List Nat × List Nat) :
    propagatePower st 0 cid s = s := rfl

theorem pp_succ (st : Circuit) (fuel : Nat) (cid : Nat) (s : List Nat × List Nat) :
    propagatePower st (fuel + 1) cid s =
      if cid ∈ s.1 then s
      else (succIds st cid).foldl (propStepF st (propagatePower st fuel)) (cid :: s.1, s.2) := rfl

theorem succIds_of_lookup_none {st : Circuit} {cid : Nat} (h : lookupC st cid = none) :
    succIds st cid = [] := by
  unfold succIds
  rw [h]

theorem propStepF_mono_of (st : Circuit)
    (rec : Nat → List Nat × List Nat → List Nat × List Nat)
    (hrec : ∀ v t, SubSt t (rec v t)) (t : List Nat × List Nat) (v : Nat) :
    SubSt t (propStepF st rec t v) := by
  unfold propStepF
  cases hl : lookupC st v with
  | none => exact SubSt.rfl
  | some c =>
      dsimp only
      split
      · exact SubSt.rfl
      · split
        · exact SubSt.trans (b := (t.1, v :: t.2))
            ⟨fun _ h => h, List.subset_cons_self v t.2⟩ (hrec v (t.1, v :: t.2))
        · exact ⟨fun _ h => h, List.subset_cons_self v t.2⟩

theorem pp_mono (st : Circuit) :
    ∀ (fuel : Nat) (cid : Nat) (s : List Nat × List Nat),
      SubSt s (propagatePower st fuel cid s) := by
  intro fuel
  induction fuel with
  | zero => intro cid s; exact SubSt.rfl
  | succ fuel ih =>
      intro cid s
      rw [pp_succ]
      by_cases hc : cid ∈ s.1
      · rw [if_pos hc]; exact SubSt.rfl
      · rw [if_neg hc]
        refine SubSt.trans (b := (cid :: s.1, s.2))
          ⟨List.subset_cons_self cid s.1, fun _ h => h⟩ ?_
        exact foldl_subSt _ (propStepF_mono_of st _ (fun v t => ih v t)) _ _

theorem propStepF_mono (st : Circuit) (fuel : Nat) (t : List Nat × List Nat) (v : Nat) :
    SubSt t (propStepF st (propagatePower st fuel) t v) :=
  propStepF_mono_of st _ (fun v t => pp_mono st fuel v t) t v

/-! ### Case equations for one propagation step -/

theorem propStepF_none {st : Circuit} {v : Nat}
    (rec : Nat → List Nat × List Nat → List Nat × List Nat) (t : List Nat × List Nat)
    (hlv : lookupC st v = none) : propStepF st rec t v = t := by
  simp only [propStepF, hlv]

theorem propStepF_skip {st : Circuit} {v : Nat} {c : Component}
    (rec : Nat → List Nat × List Nat → List Nat × List Nat) (t : List Nat × List Nat)
    (hlv : lookupC st v = some c) (h : v ∈ t.1 ∨ canConduct c = false) :
    propStepF st rec t v = t := by
  simp only [propStepF, hlv, if_pos h]

theorem propStepF_stop {st : Circuit} {v : Nat} {c : Component}
    (rec : Nat → List Nat × List Nat → List Nat × List Nat) (t : List Nat × List Nat)
    (hlv : lookupC st v = some c) (h : ¬(v ∈ t.1 ∨ canConduct c = false))
    (hsp : shouldPropagate c = false) :
    propStepF st rec t v = (t.1, v :: t.2) := by
  simp only [propStepF, hlv, if_neg h, hsp, if_false]
  simp [Bool.false_eq_true]

theorem propStepF_go {st : Circuit} {v : Nat} {c : Component}
    (rec : Nat → List Nat × List Nat → List Nat × List Nat) (t : List Nat × List Nat)
    (hlv : lookupC st v = some c) (h : ¬(v ∈ t.1 ∨ canConduct c = false))
    (hsp : shouldPropagate c = true) :
    propStepF st rec t v = rec v (t.1, v :: t.2) := by
  simp only [propStepF, hlv, if_neg h, hsp, if_true]

/-! ### Soundness: everything the propagation touches is reachable -/

/-- `v` is reachable from `root` and conducts. -/
def GoodC (st : Circuit) (root v : Nat) : Prop :=
  Reach st root v ∧ ∃ cv, lookupC st v = some cv ∧ canConduct cv = true

/-- `v` is reachable from `root`, conducts, and propagates further. -/
def GoodP (st : Circuit) (root v : Nat) : Prop :=
  Reach st root v ∧
    ∃ cv, lookupC st v = some cv ∧ canConduct cv = true ∧ shouldPropagate cv = true

theorem pp_sound (st : Circuit) (root : Nat) :
    ∀ (fuel : Nat) (cid : Nat) (s : List Nat × List Nat),
      (cid = root ∨ GoodP st root cid) →
      (∀ x ∈ (propagatePower st fuel cid s).1, x ∈ s.1 ∨ x = cid ∨ GoodP st root x) ∧
      (∀ x ∈ (propagatePower st fuel cid s).2, x ∈ s.2 ∨ GoodC st root x) := by
  intro fuel
  induction fuel with
  | zero => intro cid s _; exact ⟨fun x hx => Or.inl hx, fun x hx => Or.inl hx⟩
  | succ fuel ih =>
      intro cid s hcid
      rw [pp_succ]
      by_cases hc : cid ∈ s.1
      · rw [if_pos hc]; exact ⟨fun x hx => Or.inl hx, fun x hx => Or.inl hx⟩
      · rw [if_neg hc]
        have key := foldl_inv (propStepF st (propagatePower st fuel))
          (fun t => (∀ x ∈ t.1, x ∈ s.1 ∨ x = cid ∨ GoodP st root x) ∧
            (∀ x ∈ t.2, x ∈ s.2 ∨ GoodC st root x))
          (succIds st cid) (cid :: s.1, s.2) ?_ ?_
        · exact key
        · constructor
          · intro x hx
            rcases List.mem_cons.mp hx with rfl | hx'
            · exact Or.inr (Or.inl rfl)
            · exact Or.inl hx'
          · intro x hx; exact Or.inl hx
        · intro t v hv ht
          cases hlv : lookupC st v with
          | none => rw [propStepF_none _ _ hlv]; exact ht
          | some c =>
              by_cases hskip : v ∈ t.1 ∨ canConduct c = false
              · rw [propStepF_skip _ _ hlv hskip]; exact ht
              · have hcond : canConduct c = true := by
                  rcases not_or.mp hskip with ⟨_, h2⟩
                  simpa using h2
                have hreach : Reach st root v := by
                  rcases hcid with rfl | ⟨hr, cu, hlu, hcu, hpu⟩
                  · exact Reach.base hv hlv hcond
                  · exact Reach.step hr hlu hcu hpu hv hlv hcond
                by_cases hsp : shouldPropagate c = true
                · rw [propStepF_go _ _ hlv hskip hsp]
                  have ihv := ih v (t.1, v :: t.2)
                    (Or.inr ⟨hreach, c, hlv, hcond, hsp⟩)
                  constructor
                  · intro x hx
                    rcases ihv.1 x hx with hx' | hx' | hx'
                    · exact ht.1 x hx'
                    · exact Or.inr (Or.inr (hx' ▸ ⟨hreach, c, hlv, hcond, hsp⟩))
                    · exact Or.inr (Or.inr hx')
                  · intro x hx
                    rcases ihv.2 x hx with hx' | hx'
                    · rcases List.mem_cons.mp hx' with rfl | hx''
                      · exact Or.inr ⟨hreach, c, hlv, hcond⟩
                      · exact ht.2 x hx''
                    · exact Or.inr hx'
                · rw [propStepF_stop _ _ hlv hskip (by simpa using hsp)]
                  constructor
                  · exact ht.1
                  · intro x hx
                    rcases List.mem_cons.mp hx with rfl | hx'
                    · exact Or.inr ⟨hreach, c, hlv, hcond⟩
                    · exact ht.2 x hx'

/-! ### Completeness: every reachable conducting component is powered -/

/-- After a call rooted at `cid` with starting visited set `vis0`, the
visited node `u` has been fully processed: each of its conducting
successors has been powered (unless it was visited from the start or is
the root, which is never powered by its own call), and each of its
conducting, further-propagating successors has been visited. -/
def processedAt (st : Circuit) (cid : Nat) (vis0 : List Nat)
    (R : List Nat × List Nat) (u : Nat) : Prop :=
  ∀ v ∈ succIds st u, ∀ cv, lookupC st v = some cv → canConduct cv = true →
    (v ∈ R.2 ∨ v ∈ vis0 ∨ v = cid) ∧ (shouldPropagate cv = true → v ∈ R.1)

theorem processedAt_mono {st : Circuit} {cid : Nat} {vis0 : List Nat}
    {R R' : List Nat × List Nat} (h : SubSt R R') {u : Nat}
    (hp : processedAt st cid vis0 R u) : processedAt st cid vis0 R' u := by
  intro v hv cv hl hcond
  obtain ⟨h1, h2⟩ := hp v hv cv hl hcond
  exact ⟨Or.imp (fun hx => h.2 hx) id h1, fun hsp => h.1 (h2 hsp)⟩

theorem pp_complete (st : Circuit) :
    ∀ (fuel : Nat) (cid : Nat) (s : List Nat × List Nat), unvisited st s.1 < fuel →
      cid ∈ (propagatePower st fuel cid s).1 ∧
      (∀ x ∈ (propagatePower st fuel cid s).1,
        x ∈ s.1 ∨ x = cid ∨ x ∈ (propagatePower st fuel cid s).2) ∧
      (∀ u ∈ (propagatePower st fuel cid s).1, u ∉ s.1 →
        processedAt st cid s.1 (propagatePower st fuel cid s) u) := by
  intro fuel
  induction fuel with
  | zero => intro cid s hf; exact absurd hf (Nat.not_lt_zero _)
  | succ fuel ih =>
      intro cid s hf
      rw [pp_succ]
      by_cases hc : cid ∈ s.1
      · rw [if_pos hc]
        exact ⟨hc, fun x hx => Or.inl hx, fun u hu hnu => absurd hu hnu⟩
      · rw [if_neg hc]
        cases hcl : lookupC st cid with
        | none =>
            rw [succIds_of_lookup_none hcl]
            simp only [List.foldl_nil]
            refine ⟨List.mem_cons_self _ _, ?_, ?_⟩
            · intro x hx
              rcases List.mem_cons.mp hx with rfl | hx'
              · exact Or.inr (Or.inl rfl)
              · exact Or.inl hx'
            · intro u hu hnu
              rcases List.mem_cons.mp hu with rfl | hu'
              · intro v hv
                rw [succIds_of_lookup_none hcl] at hv
                cases hv
              · exact absurd hu' hnu
        | some c0 =>
            have hcm : cid ∈ st.comps.map (fun c => c.id) := lookupC_mem_ids hcl
            have hult : unvisited st (cid :: s.1) < unvisited st s.1 :=
              unvisited_cons_lt hcm hc
            have hfle : unvisited st s.1 ≤ fuel := Nat.lt_succ_iff.mp hf
            -- fold invariant plus per-element facts
            have key :
                ∀ (l : List Nat) (t : List Nat × List Nat),
                  (cid :: s.1 ⊆ t.1 ∧
                    (∀ x ∈ t.1, x ∈ s.1 ∨ x = cid ∨ x ∈ t.2) ∧
                    (∀ u ∈ t.1, u ∉ s.1 → u ≠ cid → processedAt st cid s.1 t u)) →
                  let RT := l.foldl (propStepF st (propagatePower st fuel)) t
                  (cid :: s.1 ⊆ RT.1 ∧
                    (∀ x ∈ RT.1, x ∈ s.1 ∨ x = cid ∨ x ∈ RT.2) ∧
                    (∀ u ∈ RT.1, u ∉ s.1 → u ≠ cid → processedAt st cid s.1 RT u)) ∧
                  (∀ v ∈ l, ∀ cv, lookupC st v = some cv → canConduct cv = true →
                    (v ∈ RT.2 ∨ v ∈ s.1 ∨ v = cid) ∧
                    (shouldPropagate cv = true → v ∈ RT.1)) := by
              intro l
              induction l with
              | nil =>
                  intro t ht
                  exact ⟨ht, fun v hv => absurd hv (List.not_mem_nil v)⟩
              | cons v rest ihl =>
                  intro t ht
                  -- facts about the single step on v
                  have hstep :
                      (cid :: s.1 ⊆ (propStepF st (propagatePower st fuel) t v).1 ∧
                        (∀ x ∈ (propStepF st (propagatePower st fuel) t v).1,
                          x ∈ s.1 ∨ x = cid ∨ x ∈ (propStepF st (propagatePower st fuel) t v).2) ∧
                        (∀ u ∈ (propStepF st (propagatePower st fuel) t v).1, u ∉ s.1 → u ≠ cid →
                          processedAt st cid s.1 (propStepF st (propagatePower st fuel) t v) u)) ∧
                      (∀ cv, lookupC st v = some cv → canConduct cv = true →
                        (v ∈ (propStepF st (propagatePower st fuel) t v).2 ∨ v ∈ s.1 ∨ v = cid) ∧
                        (shouldPropagate cv = true →
                          v ∈ (propStepF st (propagatePower st fuel) t v).1)) := by
                    cases hlv : lookupC st v with
                    | none =>
                        rw [propStepF_none _ _ hlv]
                        exact ⟨ht, fun cv hl => nomatch hl⟩
                    | some cv0 =>
                        by_cases hskip : v ∈ t.1 ∨ canConduct cv0 = false
                        · rw [propStepF_skip _ _ hlv hskip]
                          refine ⟨ht, ?_⟩
                          intro cv hl hcond
                          have hveq : cv = cv0 := (Option.some.inj hl).symm
                          subst hveq
                          rcases hskip with hvt | hcf
                          · rcases ht.2.1 v hvt with h' | h' | h'
                            · exact ⟨Or.inr (Or.inl h'), fun _ => hvt⟩
                            · exact ⟨Or.inr (Or.inr h'), fun _ => hvt⟩
                            · exact ⟨Or.inl h', fun _ => hvt⟩
                          · rw [hcond] at hcf; cases hcf
                        · have hcond0 : canConduct cv0 = true := by
                            rcases not_or.mp hskip with ⟨_, h2⟩
                            simpa using h2
                          have hvnt : v ∉ t.1 := (not_or.mp hskip).1
                          by_cases hsp : shouldPropagate cv0 = true
                          · rw [propStepF_go _ _ hlv hskip hsp]
                            have hfv : unvisited st t.1 < fuel := by
                              have h1 : unvisited st t.1 ≤ unvisited st (cid :: s.1) :=
                                unvisited_anti st ht.1
                              omega
                            have ihv := ih v (t.1, v :: t.2) hfv
                            have hmono' : SubSt (t.1, v :: t.2)
                                (propagatePower st fuel v (t.1, v :: t.2)) :=
                              pp_mono st fuel v _
                            have hvpow : v ∈ (propagatePower st fuel v (t.1, v :: t.2)).2 :=
                              hmono'.2 (List.mem_cons_self _ _)
                            refine ⟨⟨?_, ?_, ?_⟩, ?_⟩
                            · exact ht.1.trans hmono'.1
                            · intro x hx
                              rcases ihv.2.1 x hx with hx' | hx' | hx'
                              · rcases ht.2.1 x hx' with h' | h' | h'
                                · exact Or.inl h'
                                · exact Or.inr (Or.inl h')
                                · exact Or.inr (Or.inr (hmono'.2 (List.mem_cons_of_mem v h')))
                              · exact Or.inr (Or.inr (hx' ▸ hvpow))
                              · exact Or.inr (Or.inr hx')
                            · intro u hu hnu1 hnu2
                              by_cases hut : u ∈ t.1
                              · have hsub : SubSt t (propagatePower st fuel v (t.1, v :: t.2)) :=
                                  ⟨hmono'.1, fun x hx => hmono'.2 (List.mem_cons_of_mem v hx)⟩
                                exact processedAt_mono hsub (ht.2.2 u hut hnu1 hnu2)
                              · have hproc := ihv.2.2 u hu hut
                                intro w hw cw hlw hcw
                                obtain ⟨H1, H2⟩ := hproc w hw cw hlw hcw
                                refine ⟨?_, H2⟩
                                rcases H1 with H' | H' | H'
                                · exact Or.inl H'
                                · rcases ht.2.1 w H' with h' | h' | h'
                                  · exact Or.inr (Or.inl h')
                                  · exact Or.inr (Or.inr h')
                                  · exact Or.inl (hmono'.2 (List.mem_cons_of_mem v h'))
                                · exact Or.inl (H' ▸ hvpow)
                            · intro cv hl hcond
                              exact ⟨Or.inl hvpow, fun _ => ihv.1⟩
                          · rw [propStepF_stop _ _ hlv hskip (by simpa using hsp)]
                            refine ⟨⟨ht.1, ?_, ?_⟩, ?_⟩
                            · intro x hx
                              rcases ht.2.1 x hx with h' | h' | h'
                              · exact Or.inl h'
                              · exact Or.inr (Or.inl h')
                              · exact Or.inr (Or.inr (List.mem_cons_of_mem v h'))
                            · intro u hu hnu1 hnu2
                              have hsub : SubSt t ((t.1, v :: t.2) : List Nat × List Nat) :=
                                ⟨fun x hx => hx, List.subset_cons_self v t.2⟩
                              exact processedAt_mono hsub (ht.2.2 u hu hnu1 hnu2)
                            · intro cv hl hcond
                              have hveq : cv = cv0 := (Option.some.inj hl).symm
                              subst hveq
                              refine ⟨Or.inl (List.mem_cons_self _ _), fun hsp' => ?_⟩
                              rw [hsp'] at hsp; exact absurd rfl hsp
                  -- combine with the rest of the fold
                  have hrest := ihl (propStepF st (propagatePower st fuel) t v) hstep.1
                  have hmono2 : SubSt (propStepF st (propagatePower st fuel) t v)
                      (rest.foldl (propStepF st (propagatePower st fuel))
                        (propStepF st (propagatePower st fuel) t v)) :=
                    foldl_subSt _ (propStepF_mono st fuel) rest _
                  refine ⟨hrest.1, ?_⟩
                  intro w hw
                  rcases List.mem_cons.mp hw with rfl | hw'
                  · intro cv hl hcond
                    obtain ⟨h1, h2⟩ := hstep.2 cv hl hcond
                    exact ⟨Or.imp (fun hx => hmono2.2 hx) id h1, fun hsp => hmono2.1 (h2 hsp)⟩
                  · exact hrest.2 w hw'
            have hinit :
                cid :: s.1 ⊆ (cid :: s.1, s.2).1 ∧
                  (∀ x ∈ (cid :: s.1, s.2).1, x ∈ s.1 ∨ x = cid ∨ x ∈ (cid :: s.1, s.2).2) ∧
                  (∀ u ∈ (cid :: s.1, s.2).1, u ∉ s.1 → u ≠ cid →
                    processedAt st cid s.1 (cid :: s.1, s.2) u) := by
              refine ⟨fun x hx => hx, ?_, ?_⟩
              · intro x hx
                rcases List.mem_cons.mp hx with rfl | hx'
                · exact Or.inr (Or.inl rfl)
                · exact Or.inl hx'
              · intro u hu hnu1 hnu2
                rcases List.mem_cons.mp hu with rfl | hu'
                · exact absurd rfl hnu2
                · exact absurd hu' hnu1
            obtain ⟨hINV, hfacts⟩ := key (succIds st cid) (cid :: s.1, s.2) hinit
            refine ⟨hINV.1 (List.mem_cons_self _ _), hINV.2.1, ?_⟩
            intro u hu hnu
            by_cases hucid : u = cid
            · subst hucid
              intro v hv cv hl hcond
              exact hfacts v hv cv hl hcond
            · exact hINV.2.2 u hu hnu hucid

/-! ### Fuel stability and the visited set -/

theorem pp_fuel_succ (st : Circuit) :
    ∀ (fuel : Nat) (cid : Nat) (s : List Nat × List Nat), unvisited st s.1 < fuel →
      propagatePower st (fuel + 1) cid s = propagatePower st fuel cid s := by
  intro fuel
  induction fuel with
  | zero => intro cid s hf; exact absurd hf (Nat.not_lt_zero _)
  | succ k ih =>
      intro cid s hf
      rw [pp_succ, pp_succ]
      by_cases hc : cid ∈ s.1
      · rw [if_pos hc, if_pos hc]
      · rw [if_neg hc, if_neg hc]
        cases hcl : lookupC st cid with
        | none => rw [succIds_of_lookup_none hcl]; rfl
        | some c0 =>
            have hcm : cid ∈ st.comps.map (fun c => c.id) := lookupC_mem_ids hcl
            have hult : unvisited st (cid :: s.1) < unvisited st s.1 :=
              unvisited_cons_lt hcm hc
            apply foldl_congr_inv (fun t => cid :: s.1 ⊆ t.1)
            · exact fun x hx => hx
            · intro t v _ hP
              constructor
              · cases hlv : lookupC st v with
                | none => rw [propStepF_none _ _ hlv, propStepF_none _ _ hlv]
                | some cv0 =>
                    by_cases hskip : v ∈ t.1 ∨ canConduct cv0 = false
                    · rw [propStepF_skip _ _ hlv hskip, propStepF_skip _ _ hlv hskip]
                    · by_cases hsp : shouldPropagate cv0 = true
                      · rw [propStepF_go _ _ hlv hskip hsp, propStepF_go _ _ hlv hskip hsp]
                        apply ih
                        have h1 : unvisited st t.1 ≤ unvisited st (cid :: s.1) :=
                          unvisited_anti st hP
                        show unvisited st t.1 < k
                        omega
                      · rw [propStepF_stop _ _ hlv hskip (by simpa using hsp),
                          propStepF_stop _ _ hlv hskip (by simpa using hsp)]
              · exact hP.trans (propStepF_mono st (k + 1) t v).1

theorem pp_fuel_add (st : Circuit) (cid : Nat) (s : List Nat × List Nat) (f : Nat)
    (h : unvisited st s.1 < f) :
    ∀ k, propagatePower st (f + k) cid s = propagatePower st f cid s := by
  intro k
  induction k with
  | zero => rfl
  | succ k ihk =>
      have : f + (k + 1) = (f + k) + 1 := rfl
      rw [this, pp_fuel_succ st (f + k) cid s (lt_of_lt_of_le h (Nat.le_add_right f k)), ihk]

theorem pp_fuel_eq (st : Circuit) (cid : Nat) (s : List Nat × List Nat) {f1 f2 : Nat}
    (h1 : unvisited st s.1 < f1) (h2 : unvisited st s.1 < f2) :
    propagatePower st f1 cid s = propagatePower st f2 cid s := by
  rcases Nat.le_total f1 f2 with hle | hle
  · obtain ⟨k, rfl⟩ := Nat.le.dest hle
    exact (pp_fuel_add st cid s f1 h1 k).symm
  · obtain ⟨k, rfl⟩ := Nat.le.dest hle
    exact pp_fuel_add st cid s f2 h2 k

theorem pp_nodup (st : Circuit) :
    ∀ (fuel : Nat) (cid : Nat) (s : List Nat × List Nat), s.1.Nodup →
      (propagatePower st fuel cid s).1.Nodup := by
  intro fuel
  induction fuel with
  | zero => intro cid s h; exact h
  | succ fuel ih =>
      intro cid s h
      rw [pp_succ]
      by_cases hc : cid ∈ s.1
      · rw [if_pos hc]; exact h
      · rw [if_neg hc]
        apply foldl_inv (propStepF st (propagatePower st fuel)) (fun t => t.1.Nodup)
        · exact List.nodup_cons.mpr ⟨hc, h⟩
        · intro t v _ ht
          cases hlv : lookupC st v with
          | none => rw [propStepF_none _ _ hlv]; exact ht
          | some cv0 =>
              by_cases hskip : v ∈ t.1 ∨ canConduct cv0 = false
              · rw [propStepF_skip _ _ hlv hskip]; exact ht
              · by_cases hsp : shouldPropagate cv0 = true
                · rw [propStepF_go _ _ hlv hskip hsp]
                  exact ih v (t.1, v :: t.2) ht
                · rw [propStepF_stop _ _ hlv hskip (by simpa using hsp)]
                  exact ht

/-! ### Reachability corollaries for a call with a fresh visited set -/

/-- Paths concatenate: a reachable conducting propagating component relays
reachability. -/
theorem Reach.through {st : Circuit} {r o v : Nat} {co : Component}
    (h1 : Reach st r o) (ho : lookupC st o = some co) (hc : canConduct co = true)
    (hp : shouldPropagate co = true) (h2 : Reach st o v) : Reach st r v := by
  induction h2 with
  | base hv hl hcd => exact Reach.step h1 ho hc hp hv hl hcd
  | step _ hlu hcu hpu hv hl hcd ihr => exact Reach.step ihr hlu hcu hpu hv hl hcd

/-- Master completeness: a call with a fresh visited set powers every
reachable conducting component other than the root itself. -/
theorem pp_reach_powered (st : Circuit) (root : Nat) (pow : List Nat) {fuel : Nat}
    (hfuel : st.comps.length < fuel) {w : Nat} {cw : Component}
    (hr : Reach st root w) (hlw : lookupC st w = some cw) (hcw : canConduct cw = true) :
    w ∈ (propagatePower st fuel root ([], pow)).2 ∨ w = root := by
  have hf : unvisited st ([] : List Nat) < fuel :=
    lt_of_le_of_lt (unvisited_le st []) hfuel
  obtain ⟨hroot, _, hproc⟩ := pp_complete st fuel root ([], pow) hf
  -- strengthened induction along the reachability derivation
  have main : ∀ x, Reach st root x →
      (∀ cx, lookupC st x = some cx → canConduct cx = true →
        (x ∈ (propagatePower st fuel root ([], pow)).2 ∨ x = root) ∧
        (shouldPropagate cx = true → x ∈ (propagatePower st fuel root ([], pow)).1)) := by
    intro x hx
    induction hx with
    | base hv hl hcd =>
        intro cx hlx hcx
        have hpr := hproc root hroot (List.not_mem_nil root)
        obtain ⟨H1, H2⟩ := hpr _ hv cx hlx hcx
        refine ⟨?_, H2⟩
        rcases H1 with H | H | H
        · exact Or.inl H
        · cases H
        · exact Or.inr H
    | step hu hlu hcu hpu hv hl hcd ihr =>
        intro cx hlx hcx
        have hu1 := (ihr _ hlu hcu).2 hpu
        have hpr := hproc _ hu1 (List.not_mem_nil _)
        obtain ⟨H1, H2⟩ := hpr _ hv cx hlx hcx
        refine ⟨?_, H2⟩
        rcases H1 with H | H | H
        · exact Or.inl H
        · cases H
        · exact Or.inr H
  exact (main w hr cw hlw hcw).1

/-! ### Phase-level helper lemmas -/

theorem foldl_subset {α : Type _} (step : List Nat → α → List Nat)
    (hmono : ∀ acc a, acc ⊆ step acc a) :
    ∀ (l : List α) (acc : List Nat), acc ⊆ l.foldl step acc := by
  intro l
  induction l with
  | nil => intro acc; exact fun _ h => h
  | cons a rest ih => intro acc; exact (hmono acc a).trans (ih (step acc a))

theorem foldl_mem_of_mem {α : Type _} (step : List Nat → α → List Nat)
    (hmono : ∀ acc a, acc ⊆ step acc a) {g : α} {v : Nat}
    (hv : ∀ acc, v ∈ step acc g) :
    ∀ (l : List α) (acc : List Nat), g ∈ l → v ∈ l.foldl step acc := by
  intro l
  induction l with
  | nil => intro acc hg; cases hg
  | cons a rest ih =>
      intro acc hg
      rcases List.mem_cons.mp hg with rfl | hg'
      · exact foldl_subset step hmono rest (step acc g) (hv acc)
      · exact ih (step acc a) hg'

theorem ppFuel_gt (st : Circuit) : st.comps.length < ppFuel st := Nat.lt_succ_self _

/-- Soundness of the source-propagation phase: every id in the collected
powered list is a conducting component reachable from one of the listed
sources. -/
theorem propagateFromSources_sound (st : Circuit) (srcs : List Nat) :
    ∀ v ∈ propagateFromSources st srcs, ∃ s ∈ srcs, GoodC st s v := by
  unfold propagateFromSources
  have := foldl_inv
    (fun acc s =>
      if poweredOf st s || s ∈ acc then (propagatePower st (ppFuel st) s ([], acc)).2 else acc)
    (fun acc => ∀ v ∈ acc, ∃ s ∈ srcs, GoodC st s v) srcs [] ?_ ?_
  · exact this
  · intro v hv; cases hv
  · intro acc s hs hacc
    dsimp only
    by_cases hcond : poweredOf st s || s ∈ acc
    · rw [if_pos hcond]
      intro v hv
      rcases (pp_sound st s (ppFuel st) s ([], acc) (Or.inl rfl)).2 v hv with h | h
      · exact hacc v h
      · exact ⟨s, hs, h⟩
    · rw [if_neg hcond]; exact hacc

theorem propagateFromSources_step_mono (st : Circuit) :
    ∀ (acc : List Nat) (s : Nat),
      acc ⊆ (if poweredOf st s || s ∈ acc
             then (propagatePower st (ppFuel st) s ([], acc)).2 else acc) := by
  intro acc s
  by_cases hcond : poweredOf st s || s ∈ acc
  · rw [if_pos hcond]
    exact (pp_mono st (ppFuel st) s ([], acc)).2
  · rw [if_neg hcond]; exact fun _ h => h

/-- Completeness of the source-propagation phase when every listed source
is powered: each conducting component reachable from a source other than
itself ends up in the collected list. -/
theorem propagateFromSources_complete (st : Circuit) {srcs : List Nat}
    (hpow : ∀ s ∈ srcs, poweredOf st s = true) {s v : Nat} {cv : Component}
    (hs : s ∈ srcs) (hr : Reach st s v) (hlv : lookupC st v = some cv)
    (hcv : canConduct cv = true) (hvs : v ≠ s) :
    v ∈ propagateFromSources st srcs := by
  unfold propagateFromSources
  apply foldl_mem_of_mem _ (propagateFromSources_step_mono st) _ srcs [] hs
  intro acc
  rw [if_pos (by rw [hpow s hs]; rfl)]
  rcases pp_reach_powered st s acc (ppFuel_gt st) hr hlv hcv with h | h
  · exact h
  · exact absurd h hvs

/-- Replacing `powered := true` by its current value is the identity. -/
theorem setPowered_self {c : Component} (h : c.powered = true) :
    { c with powered := true } = c := by
  cases c
  simp_all

theorem applyPowered_id_pres (pow : List Nat) (c : Component) :
    (if c.id ∈ pow then { c with powered := true } else c).id = c.id := by
  split <;> rfl

theorem lookupC_applyPowered (st : Circuit) (pow : List Nat) (cid : Nat) :
    lookupC (applyPowered st pow) cid =
      (lookupC st cid).map (fun c => if c.id ∈ pow then { c with powered := true } else c) :=
  lookupC_map (applyPowered_id_pres pow)

theorem updateComp_id (c : Component) : (updateComp c).id = c.id := by
  unfold updateComp
  split
  · rfl
  · split <;> rfl
  · split <;> rfl
  · split <;> rfl

theorem resetComp_id (c : Component) : (resetComp c).id = c.id := by
  unfold resetComp
  split <;> rfl

theorem lookupC_finalize (st : Circuit) (cid : Nat) :
    lookupC (finalizePhase st) cid = (lookupC st cid).map updateComp :=
  lookupC_map updateComp_id

theorem lookupC_reset (st : Circuit) (cid : Nat) :
    lookupC (resetPhase st) cid = (lookupC st cid).map resetComp :=
  lookupC_map resetComp_id

/-- Completeness of the gate-output propagation phase: a conducting
component reachable from a true-output gate (and distinct from it) is in
the collected powered list. -/
theorem gatePropagation_complete (st : Circuit) {g : Component} {v : Nat} {cv : Component}
    (hg : g ∈ st.comps.filter (fun c => isLogicGate c.ctype))
    (hout : g.output = true) (hr : Reach st g.id v) (hlv : lookupC st v = some cv)
    (hcv : canConduct cv = true) (hvg : v ≠ g.id) :
    v ∈ (st.comps.filter (fun c => isLogicGate c.ctype)).foldl
      (fun acc c => if c.output then (propagatePower st (ppFuel st) c.id ([], acc)).2 else acc)
      [] := by
  apply foldl_mem_of_mem _ ?_ ?_ _ [] hg
  · intro acc c
    by_cases hc : c.output
    · rw [if_pos hc]; exact (pp_mono st (ppFuel st) c.id ([], acc)).2
    · rw [if_neg hc]; exact fun _ h => h
  · intro acc
    rw [if_pos hout]
    rcases pp_reach_powered st g.id acc (ppFuel_gt st) hr hlv hcv with h | h
    · exact h
    · exact absurd h hvg

theorem pp_visited (st : Circuit) (f : Nat) (cid : Nat) (s : List Nat × List Nat)
    (h : cid ∈ s.1) : propagatePower st f cid s = s := by
  cases f with
  | zero => rfl
  | succ f => rw [pp_succ, if_pos h]

theorem updateComp_ctype (c : Component) : (updateComp c).ctype = c.ctype := by
  unfold updateComp
  split
  · rfl
  · split <;> rfl
  · split <;> rfl
  · split <;> rfl

/-! ### Claim theorems -/

/-- C3: the gate truth tables of `calculate`, including the under-supply
policy — AND/OR/NOT/XOR yield false when under-supplied while NAND/NOR
yield true (a NAND with zero inputs outputs true) — and `update` copies the
computed output into both `output` and `powered`. -/
theorem claim_C3 (i0 i1 : Bool) (rest : List Bool) :
    calculate .andGate (i0 :: i1 :: rest) = (i0 && i1) ∧
    calculate .andGate [i0] = false ∧
    calculate .andGate [] = false ∧
    (∀ l : List Bool, calculate .orGate l = l.any (fun b => b)) ∧
    calculate .orGate [] = false ∧
    calculate .notGate (i0 :: rest) = !i0 ∧
    calculate .notGate [] = false ∧
    calculate .xorGate (i0 :: i1 :: rest) = (i0 != i1) ∧
    calculate .xorGate [i0] = false ∧
    calculate .xorGate [] = false ∧
    calculate .nandGate (i0 :: i1 :: rest) = !(i0 && i1) ∧
    calculate .nandGate [i0] = true ∧
    calculate .nandGate [] = true ∧
    calculate .norGate (i0 :: i1 :: rest) = !(i0 || i1) ∧
    calculate .norGate [i0] = true ∧
    calculate .norGate [] = true ∧
    (∀ c : Component, isLogicGate c.ctype = true →
      (updateComp c).output = calculate c.ctype c.inputs ∧
      (updateComp c).powered = calculate c.ctype c.inputs) := by
  refine ⟨?_, rfl, rfl, ?_, rfl, ?_, rfl, ?_, rfl, rfl, ?_, rfl, rfl, ?_, rfl, rfl, ?_⟩
  · simp [calculate]
  · intro l; cases l <;> simp [calculate]
  · simp [calculate]
  · simp [calculate]
  · simp [calculate]
  · simp [calculate]
  · intro c hgate
    unfold updateComp
    cases hct : c.ctype <;> simp_all [isLogicGate]

/-- C10: after every `updateCircuit` call each battery in the component
list is powered, whatever its previous state: the reset phase leaves
batteries untouched and the final update pass sets their `powered` flag
unconditionally. -/
theorem claim_C10 (st : Circuit) :
    (∀ c ∈ (updateCircuit st).comps, c.ctype = .battery → c.powered = true) ∧
    (∀ c : Component, c.ctype = .battery → resetComp c = c) := by
  constructor
  · intro c hc hbat
    have hc' : c ∈ (gatePropagationPhase (afterGateEval st)).comps.map updateComp := hc
    obtain ⟨d, _, rfl⟩ := List.mem_map.mp hc'
    have hdb : d.ctype = .battery := by rw [← updateComp_ctype d]; exact hbat
    unfold updateComp
    rw [hdb]
  · intro c hbat
    unfold resetComp
    rw [if_pos hbat]

/-- C9: in every simulator state reachable from the constructor state by
`addComponent`/`removeComponent` calls, each id in `powerSources` belongs
to a battery in the component list — the source list is a cache of the
battery members, never independent. -/
theorem simInv_add (st : Circuit) (c : Component)
    (h : (∀ sid ∈ st.powerSources, ∃ d ∈ st.comps, d.id = sid ∧ d.ctype = .battery) ∧
      st.powerSources.Nodup) :
    (∀ sid ∈ (addComponent st c).powerSources,
      ∃ d ∈ (addComponent st c).comps, d.id = sid ∧ d.ctype = .battery) ∧
    (addComponent st c).powerSources.Nodup := by
  unfold addComponent
  by_cases hdup : st.comps.any (fun d => d.id == c.id)
  · rw [if_pos hdup]; exact h
  · rw [if_neg hdup]
    dsimp only
    have hfresh : c.id ∉ st.powerSources := by
      intro hmem
      obtain ⟨d, hd, hdid, _⟩ := h.1 c.id hmem
      have : st.comps.any (fun d => d.id == c.id) = true :=
        List.any_eq_true.mpr ⟨d, hd, by simp [hdid]⟩
      exact hdup this
    constructor
    · intro sid hsid
      by_cases hbat : c.ctype = .battery
      · rw [if_pos hbat] at hsid
        rcases List.mem_append.mp hsid with hold | hnew
        · obtain ⟨d, hd, hdid, hdb⟩ := h.1 sid hold
          exact ⟨d, List.mem_append_left _ hd, hdid, hdb⟩
        · have hseq : sid = c.id := by simpa using hnew
          exact ⟨c, List.mem_append_right _ (by simp), hseq.symm, hbat⟩
      · rw [if_neg hbat] at hsid
        obtain ⟨d, hd, hdid, hdb⟩ := h.1 sid hsid
        exact ⟨d, List.mem_append_left _ hd, hdid, hdb⟩
    · by_cases hbat : c.ctype = .battery
      · rw [if_pos hbat]
        rw [List.nodup_append]
        exact ⟨h.2, List.nodup_singleton _,
          fun a ha hb => hfresh ((List.mem_singleton.mp hb) ▸ ha)⟩
      · rw [if_neg hbat]; exact h.2

theorem simInv_remove (st : Circuit) (cid : Nat)
    (h : (∀ sid ∈ st.powerSources, ∃ d ∈ st.comps, d.id = sid ∧ d.ctype = .battery) ∧
      st.powerSources.Nodup) :
    (∀ sid ∈ (removeComponent st cid).powerSources,
      ∃ d ∈ (removeComponent st cid).comps, d.id = sid ∧ d.ctype = .battery) ∧
    (removeComponent st cid).powerSources.Nodup := by
  unfold removeComponent
  dsimp only
  constructor
  · intro sid hsid
    have hsid2 : sid ∈ st.powerSources := List.mem_of_mem_erase hsid
    obtain ⟨d, hd, hdid, hdb⟩ := h.1 sid hsid2
    have hne : sid ≠ cid := by
      intro heq
      subst heq
      exact h.2.not_mem_erase hsid
    refine ⟨d, ?_, hdid, hdb⟩
    have hpd : ¬((fun d' : Component => d'.id == cid) d = true) := by
      simp [hdid, hne]
    exact (List.mem_eraseP_of_neg (p := fun d' : Component => d'.id == cid) (a := d)
      (l := st.comps) hpd).mpr hd
  · exact h.2.erase cid

/-- C9: in every simulator state reachable from the constructor state by
`addComponent`/`removeComponent` calls, each id in `powerSources` belongs
to a battery in the component list — the source list is a cache of the
battery members, never independent. -/
theorem claim_C9 (cols rows : Nat) (cellFn : Int → Int → Option Nat) (ops : List SimOp) :
    ∀ sid ∈ (applySimOps (mkSimulator cols rows cellFn) ops).powerSources,
      ∃ c ∈ (applySimOps (mkSimulator cols rows cellFn) ops).comps,
        c.id = sid ∧ c.ctype = .battery := by
  have main := foldl_inv applySimOp
    (fun st => (∀ sid ∈ st.powerSources,
      ∃ c ∈ st.comps, c.id = sid ∧ c.ctype = .battery) ∧ st.powerSources.Nodup)
    ops (mkSimulator cols rows cellFn)
    ⟨fun sid hsid => absurd hsid (List.not_mem_nil sid), List.nodup_nil⟩
    (fun st' op _ h => by
      cases op with
      | add c => exact simInv_add st' c h
      | remove cid => exact simInv_remove st' cid h)
  exact main.1

/-- C5: `propagatePower` terminates on every grid, cyclic ones included:
its result is independent of the recursion budget once the budget exceeds
the component count, a call on an already-visited id returns at once, the
root id is in the visited set afterwards, the visited set stays
duplicate-free, and every visited id is either previously visited, the
root, or a reachable conducting component that propagates further. -/
theorem claim_C5 (st : Circuit) (cid : Nat) (vis pow : List Nat) (f1 f2 : Nat)
    (h1 : st.comps.length + 1 ≤ f1) (h2 : st.comps.length + 1 ≤ f2) :
    propagatePower st f1 cid (vis, pow) = propagatePower st f2 cid (vis, pow) ∧
    (cid ∈ vis → propagatePower st f1 cid (vis, pow) = (vis, pow)) ∧
    cid ∈ (propagatePower st f1 cid (vis, pow)).1 ∧
    (vis.Nodup → (propagatePower st f1 cid (vis, pow)).1.Nodup) ∧
    (∀ u ∈ (propagatePower st f1 cid (vis, pow)).1,
      u ∈ vis ∨ u = cid ∨
        (Reach st cid u ∧ ∃ cu, lookupC st u = some cu ∧ canConduct cu = true ∧
          shouldPropagate cu = true)) := by
  have hu1 : unvisited st (vis, pow).1 < f1 :=
    lt_of_le_of_lt (unvisited_le st vis) (Nat.lt_of_lt_of_le (Nat.lt_succ_self _) h1)
  have hu2 : unvisited st (vis, pow).1 < f2 :=
    lt_of_le_of_lt (unvisited_le st vis) (Nat.lt_of_lt_of_le (Nat.lt_succ_self _) h2)
  refine ⟨pp_fuel_eq st cid (vis, pow) hu1 hu2, pp_visited st f1 cid (vis, pow), ?_, ?_, ?_⟩
  · exact (pp_complete st f1 cid (vis, pow) hu1).1
  · exact pp_nodup st f1 cid (vis, pow)
  · intro u hu
    exact (pp_sound st cid f1 cid (vis, pow) (Or.inl rfl)).1 u hu

/-- C4 (amended): when every listed power source is powered, the
source-propagation phase is order-independent — a component ends up
powered exactly when it was already powered or is a conducting component
reachable from some source through conducting, further-propagating
components, and any two source lists with the same members produce the
same result. -/
theorem claim_C4_amended (st : Circuit) (srcs srcs2 : List Nat)
    (hpow : ∀ s ∈ srcs, poweredOf st s = true)
    (hmem : ∀ s : Nat, s ∈ srcs ↔ s ∈ srcs2)
    (v : Nat) (cv : Component) (hv : lookupC st v = some cv) :
    (∃ cv', lookupC (applyPowered st (propagateFromSources st srcs)) v = some cv' ∧
      (cv'.powered = true ↔
        (cv.powered = true ∨ (canConduct cv = true ∧ ∃ s ∈ srcs, Reach st s v)))) ∧
    lookupC (applyPowered st (propagateFromSources st srcs)) v =
      lookupC (applyPowered st (propagateFromSources st srcs2)) v := by
  have hvid : cv.id = v := (lookupC_mem hv).2
  have hpow2 : ∀ s ∈ srcs2, poweredOf st s = true :=
    fun s hs => hpow s ((hmem s).mpr hs)
  have hpv : poweredOf st v = cv.powered := by
    unfold poweredOf
    rw [hv]
  -- the looked-up record after applying a powered list
  have hL : ∀ (l : List Nat),
      lookupC (applyPowered st (propagateFromSources st l)) v =
        some (if cv.id ∈ propagateFromSources st l
              then { cv with powered := true } else cv) := by
    intro l
    rw [lookupC_applyPowered, hv]
    rfl
  -- membership transfer between two all-powered source lists
  have htrans : ∀ (l1 l2 : List Nat), (∀ s ∈ l1, poweredOf st s = true) →
      (∀ s ∈ l2, poweredOf st s = true) → (∀ s : Nat, s ∈ l1 → s ∈ l2) →
      cv.powered = false → v ∈ propagateFromSources st l1 →
      v ∈ propagateFromSources st l2 := by
    intro l1 l2 hl1 hl2 hsub hvp hin
    obtain ⟨s, hs, hr, cv'', hlv'', hcond''⟩ := propagateFromSources_sound st l1 v hin
    have hcv : cv'' = cv := Option.some.inj (hlv''.symm.trans hv)
    subst hcv
    have hvs : v ≠ s := by
      intro heq
      rw [heq] at hpv
      rw [hl1 s hs] at hpv
      rw [← hpv] at hvp
      cases hvp
    exact propagateFromSources_complete st hl2 (hsub s hs) hr hv hcond'' hvs
  constructor
  · refine ⟨_, hL srcs, ?_⟩
    by_cases hmem1 : cv.id ∈ propagateFromSources st srcs
    · rw [if_pos hmem1]
      obtain ⟨s, hs, hr, cv'', hlv'', hcond''⟩ :=
        propagateFromSources_sound st srcs v (hvid ▸ hmem1)
      have hcv : cv'' = cv := Option.some.inj (hlv''.symm.trans hv)
      subst hcv
      exact ⟨fun _ => Or.inr ⟨hcond'', s, hs, hr⟩, fun _ => rfl⟩
    · rw [if_neg hmem1]
      constructor
      · intro hp; exact Or.inl hp
      · intro h
        rcases h with hp | ⟨hcond, s, hs, hr⟩
        · exact hp
        · by_cases hvp : cv.powered = true
          · exact hvp
          · have hvs : v ≠ s := by
              intro heq
              rw [heq, hpow s hs] at hpv
              exact hvp hpv.symm
            have hin := propagateFromSources_complete st hpow hs hr hv hcond hvs
            exact absurd (hvid ▸ hin) hmem1
  · rw [hL srcs, hL srcs2]
    by_cases hvp : cv.powered = true
    · have hself := setPowered_self hvp
      by_cases m1 : cv.id ∈ propagateFromSources st srcs <;>
        by_cases m2 : cv.id ∈ propagateFromSources st srcs2 <;>
        simp [m1, m2, hself]
    · have hvpf : cv.powered = false := by
        cases h : cv.powered with
        | false => rfl
        | true => exact absurd h hvp
      have hiff : cv.id ∈ propagateFromSources st srcs ↔
          cv.id ∈ propagateFromSources st srcs2 := by
        rw [hvid]
        constructor
        · exact htrans srcs srcs2 hpow hpow2 (fun s hs => (hmem s).mp hs) hvpf
        · exact htrans srcs2 srcs hpow2 hpow (fun s hs => (hmem s).mpr hs) hvpf
      by_cases m1 : cv.id ∈ propagateFromSources st srcs
      · rw [if_pos m1, if_pos (hiff.mp m1)]
      · rw [if_neg m1, if_neg (fun m2 => m1 (hiff.mpr m2))]

/-! ### Concrete fixtures for counterexamples and witnesses -/

/-- An unpowered battery at the origin (such a state is reachable through
the persistence boundary, which restores `powered` from saved data). -/
def cexA : Component := { id := 0, ctype := .battery, gridX := 0, gridY := 0, powered := false }

/-- A powered battery at cell (1, 0). -/
def cexB : Component := { id := 1, ctype := .battery, gridX := 1, gridY := 0, powered := true }

/-- A wire at cell (0, 1), adjacent only to the unpowered battery. -/
def cexW : Component := { id := 2, ctype := .wire, gridX := 0, gridY := 1, powered := false }

/-- The 2x2 grid holding the two batteries and the wire. -/
def cexCells : Int → Int → Option Nat := fun x y =>
  if x = 0 ∧ y = 0 then some 0
  else if x = 1 ∧ y = 0 then some 1
  else if x = 0 ∧ y = 1 then some 2
  else none

/-- The simulator state with source order [battery A, battery B]. -/
def cexSt1 : Circuit :=
  { cols := 2, rows := 2, cellFn := cexCells, comps := [cexA, cexB, cexW],
    powerSources := [0, 1] }

/-- The same simulator state with source order [battery B, battery A]. -/
def cexSt2 : Circuit :=
  { cols := 2, rows := 2, cellFn := cexCells, comps := [cexA, cexB, cexW],
    powerSources := [1, 0] }

/-- C4 counterexample: two states identical except for the iteration order
of the power-source list (same grid, same components, same source
membership) give different powered sets — the wire next to the unpowered
battery stays dead in one order and is powered in the other, because an
unpowered source is skipped unless an earlier source's propagation has
already powered it. -/
theorem claim_C4_counterexample :
    cexSt1.cols = cexSt2.cols ∧ cexSt1.rows = cexSt2.rows ∧
    cexSt1.cellFn = cexSt2.cellFn ∧ cexSt1.comps = cexSt2.comps ∧
    (∀ s : Nat, s ∈ cexSt1.powerSources ↔ s ∈ cexSt2.powerSources) ∧
    poweredOf (updateCircuit cexSt1) 2 = false ∧
    poweredOf (updateCircuit cexSt2) 2 = true := by
  refine ⟨rfl, rfl, rfl, rfl, ?_, ?_, ?_⟩
  · intro s
    show s ∈ [0, 1] ↔ s ∈ [1, 0]
    simp [or_comm]
  · decide
  · decide

/-- The powered battery of the C4 witness circuit. -/
def w4b : Component := { id := 0, ctype := .battery, powered := true }

/-- The wire of the C4 witness circuit, one cell to the battery's right. -/
def w4w : Component := { id := 1, ctype := .wire, gridX := 1, gridY := 0 }

/-- A 2x1 battery–wire circuit for the C4 witness. -/
def w4St : Circuit :=
  { cols := 2, rows := 1,
    cellFn := fun x y =>
      if x = 0 ∧ y = 0 then some 0 else if x = 1 ∧ y = 0 then some 1 else none,
    comps := [w4b, w4w], powerSources := [0] }

theorem claim_C4_amended_witness :
    (∃ cv', lookupC (applyPowered w4St (propagateFromSources w4St [0])) 1 = some cv' ∧
      (cv'.powered = true ↔
        (w4w.powered = true ∨ (canConduct w4w = true ∧ ∃ s ∈ [0], Reach w4St s 1)))) ∧
    lookupC (applyPowered w4St (propagateFromSources w4St [0])) 1 =
      lookupC (applyPowered w4St (propagateFromSources w4St [0])) 1 :=
  claim_C4_amended w4St [0] [0] (by decide) (fun _ => Iff.rfl) 1 w4w (by decide)

theorem claim_C3_witness :
    calculate .nandGate [] = true ∧
    (updateComp { id := 7, ctype := ComponentType.nandGate }).output =
      calculate ComponentType.nandGate [] := by
  obtain ⟨_, _, _, _, _, _, _, _, _, _, _, _, h13, _, _, _, h17⟩ := claim_C3 true false []
  exact ⟨h13, (h17 { id := 7, ctype := ComponentType.nandGate } rfl).1⟩

theorem claim_C9_witness :
    ∃ c ∈ (applySimOps (mkSimulator 1 1 (fun _ _ => none))
      [SimOp.add { id := 5, ctype := .battery }]).comps,
        c.id = 5 ∧ c.ctype = .battery :=
  claim_C9 1 1 (fun _ _ => none)
    [SimOp.add { id := 5, ctype := .battery }] 5 (by decide)

/-- A one-battery circuit whose battery starts unpowered. -/
def w10St : Circuit :=
  { cols := 1, rows := 1, cellFn := fun _ _ => none,
    comps := [{ id := 0, ctype := .battery, powered := false }], powerSources := [0] }

theorem claim_C10_witness :
    ({ id := 0, ctype := .battery, powered := true } : Component).powered = true :=
  (claim_C10 w10St).1 { id := 0, ctype := .battery, powered := true } (by decide) rfl

/-- Four wires in a 2x2 cycle, for the C5 witness on a cyclic topology. -/
def w5St : Circuit :=
  { cols := 2, rows := 2,
    cellFn := fun x y =>
      if x = 0 ∧ y = 0 then some 0
      else if x = 1 ∧ y = 0 then some 1
      else if x = 1 ∧ y = 1 then some 2
      else if x = 0 ∧ y = 1 then some 3
      else none,
    comps :=
      [{ id := 0, ctype := .wire, gridX := 0, gridY := 0 },
       { id := 1, ctype := .wire, gridX := 1, gridY := 0 },
       { id := 2, ctype := .wire, gridX := 1, gridY := 1 },
       { id := 3, ctype := .wire, gridX := 0, gridY := 1 }],
    powerSources := [] }

theorem claim_C5_witness :
    propagatePower w5St 5 0 ([], []) = propagatePower w5St 6 0 ([], []) ∧
    ((0 : Nat) ∈ ([] : List Nat) → propagatePower w5St 5 0 ([], []) = ([], [])) ∧
    (0 : Nat) ∈ (propagatePower w5St 5 0 ([], [])).1 ∧
    (([] : List Nat).Nodup → (propagatePower w5St 5 0 ([], [])).1.Nodup) ∧
    (∀ u ∈ (propagatePower w5St 5 0 ([], [])).1,
      u ∈ ([] : List Nat) ∨ u = 0 ∨
        (Reach w5St 0 u ∧ ∃ cu, lookupC w5St u = some cu ∧ canConduct cu = true ∧
          shouldPropagate cu = true)) :=
  claim_C5 w5St 0 [] [] 5 6 (by decide) (by decide)

/-- `OutputReach st g v`: entering through the cell immediately on the
gate's output side — the occupant `o` of `(gridX + 1, gridY + 1)` — the
propagation reaches `v`: either `v` is that conducting occupant itself, or
the occupant propagates further and `v` is reachable from it. -/
def OutputReach (st : Circuit) (g : Component) (v : Nat) : Prop :=
  ∃ o co, getCellId st (g.gridX + 1) (g.gridY + 1) = some o ∧ lookupC st o = some co ∧
    canConduct co = true ∧ (v = o ∨ (shouldPropagate co = true ∧ Reach st o v))

/-- C1: after the gate evaluation phase of a tick, every gate with a true
output propagates with a fresh visited set, entering through the cell on
its output side, so every wire or LED reachable through that output is
powered at the end of the same `updateCircuit` call. -/
theorem claim_C1 (st : Circuit) (g : Component) (v : Nat) (cv : Component)
    (hnd : ((afterGateEval st).comps.map (fun c => c.id)).Nodup)
    (hg : g ∈ (afterGateEval st).comps)
    (hgate : isLogicGate g.ctype = true)
    (hout : g.output = true)
    (hreach : OutputReach (afterGateEval st) g v)
    (hv : lookupC (afterGateEval st) v = some cv)
    (hwl : cv.ctype = .wire ∨ cv.ctype = .led) :
    ∃ cv', lookupC (updateCircuit st) v = some cv' ∧ cv'.powered = true := by
  have hlg : lookupC (afterGateEval st) g.id = some g := lookupC_of_mem_nodup hnd hg
  have hvid : cv.id = v := (lookupC_mem hv).2
  have hvg : v ≠ g.id := by
    intro heq
    rw [heq, hlg] at hv
    have hgcv : g = cv := Option.some.inj hv
    rcases hwl with h | h <;> rw [← hgcv] at h <;> rw [h] at hgate <;> cases hgate
  obtain ⟨o, co, hcell, hlo, hco, hcase⟩ := hreach
  have hosucc : o ∈ succIds (afterGateEval st) g.id := by
    unfold succIds
    rw [hlg]
    apply List.mem_append_right
    rw [hgate, hout, hcell]
    simp
  have hro : Reach (afterGateEval st) g.id o := Reach.base hosucc hlo hco
  have hrv : Reach (afterGateEval st) g.id v := by
    rcases hcase with rfl | ⟨hsp, hr2⟩
    · exact hro
    · exact Reach.through hro hlo hco hsp hr2
  have hcv : canConduct cv = true := by
    rcases hwl with h | h <;> (unfold canConduct; rw [h])
  have hgf : g ∈ (afterGateEval st).comps.filter (fun c => isLogicGate c.ctype) :=
    List.mem_filter.mpr ⟨hg, hgate⟩
  have hmem := gatePropagation_complete (afterGateEval st) hgf hout hrv hv hcv hvg
  have h4 : lookupC (gatePropagationPhase (afterGateEval st)) v =
      some { cv with powered := true } := by
    unfold gatePropagationPhase
    rw [lookupC_applyPowered, hv]
    dsimp only [Option.map]
    rw [if_pos (hvid ▸ hmem)]
  refine ⟨updateComp { cv with powered := true }, ?_, ?_⟩
  · show lookupC (finalizePhase (gatePropagationPhase (afterGateEval st))) v = _
    rw [lookupC_finalize, h4]
    rfl
  · rcases hwl with h | h <;> simp [updateComp, isLogicGate, h]

/-- The NAND gate of the C1 witness circuit (its under-supplied output is
true, so it propagates in phase 4). -/
def w1Nand : Component := { id := 0, ctype := .nandGate, gridX := 0, gridY := 0, gridH := 2 }

/-- The wire at the NAND gate's output cell (1, 1). -/
def w1W : Component := { id := 1, ctype := .wire, gridX := 1, gridY := 1 }

/-- The LED behind the wire, at (2, 1). -/
def w1L : Component := { id := 2, ctype := .led, gridX := 2, gridY := 1 }

/-- NAND gate (cells (0,0) and (0,1)) feeding a wire and an LED. -/
def w1St : Circuit :=
  { cols := 3, rows := 2,
    cellFn := fun x y =>
      if x = 0 ∧ y = 0 then some 0
      else if x = 0 ∧ y = 1 then some 0
      else if x = 1 ∧ y = 1 then some 1
      else if x = 2 ∧ y = 1 then some 2
      else none,
    comps := [w1Nand, w1W, w1L], powerSources := [] }

/-- The NAND gate's record after the gate evaluation phase. -/
def w1NandEval : Component :=
  { id := 0, ctype := .nandGate, gridX := 0, gridY := 0, gridH := 2,
    powered := true, output := true }

theorem claim_C1_witness :
    ∃ cv', lookupC (updateCircuit w1St) 2 = some cv' ∧ cv'.powered = true :=
  claim_C1 w1St w1NandEval 2 w1L (by decide) (by decide) rfl rfl
    ⟨1, w1W, by decide, by decide, rfl,
      Or.inr ⟨rfl, Reach.base (c := w1L) (by decide) (by decide) rfl⟩⟩
    (by decide) (Or.inr rfl)

theorem updateComp_inputs (c : Component) : (updateComp c).inputs = c.inputs := by
  unfold updateComp
  split
  · rfl
  · split <;> rfl
  · split <;> rfl
  · split <;> rfl

theorem filterMap_pair {α β : Type _} (f : α → Option β) (a b : α) :
    List.filterMap f [a, b] = (f a).toList ++ (f b).toList := by
  cases h1 : f a <;> cases h2 : f b <;> simp [h1, h2]

/-- The value the gate input collection reads at one cell, stated from the
amended claim: the occupant's `powered` flag, unless the cell is empty,
dangling, or occupied by the gate itself. -/
def gateInputReadSpec (st : Circuit) (gid : Nat) (x y : Int) : Option Bool :=
  match getCellId st x y with
  | some cid => if cid = gid then none else (lookupC st cid).map (fun c => c.powered)
  | none => none

/-- C2 (amended): during the gate input collection phase, each gate's step
reads the two cells `(gridX - 1, gridY)` (left of the gate's top cell) and
`(gridX - 1, gridY + 2)` (left of the cell one row below the 2-cell-tall
gate's bottom cell — the code positions its second input for a 3-cell-tall
footprint), pushes the values found there in that fixed order, keeps at
most two, and then invokes the gate's update. -/
theorem claim_C2_amended (st : Circuit) (gid : Nat) (g : Component)
    (hg : lookupC st gid = some g) :
    (∃ g', lookupC (processGate st gid) gid = some g' ∧
      g' = updateComp { g with inputs := (gateInputReads st gid g.gridX g.gridY).take 2 } ∧
      g'.inputs = (gateInputReads st gid g.gridX g.gridY).take 2 ∧
      g'.inputs.length ≤ 2) ∧
    gateInputReads st gid g.gridX g.gridY =
      (gateInputReadSpec st gid (g.gridX - 1) g.gridY).toList ++
        (gateInputReadSpec st gid (g.gridX - 1) (g.gridY + 2)).toList ∧
    gateEvalPhase st = (gateIds st).foldl processGate st := by
  have hgid : g.id = gid := (lookupC_mem hg).2
  refine ⟨?_, ?_, rfl⟩
  · have hstep : processGate st gid =
        replaceComp st
          (updateComp { g with inputs := (gateInputReads st gid g.gridX g.gridY).take 2 }) := by
      unfold processGate
      rw [hg]
    have hgid2 :
        (updateComp { g with inputs := (gateInputReads st gid g.gridX g.gridY).take 2 }).id
          = gid := by
      rw [updateComp_id]
      exact hgid
    refine ⟨_, ?_, rfl, ?_, ?_⟩
    · rw [hstep]
      unfold replaceComp
      rw [lookupC_map ?_, hg]
      · dsimp only [Option.map]
        rw [if_pos (hgid.trans hgid2.symm)]
      · intro d
        by_cases hd : d.id =
            (updateComp { g with inputs := (gateInputReads st gid g.gridX g.gridY).take 2 }).id
        · rw [if_pos hd]
          exact hd.symm
        · rw [if_neg hd]
    · rw [updateComp_inputs]
    · rw [updateComp_inputs]
      show ((gateInputReads st gid g.gridX g.gridY).take 2).length ≤ 2
      rw [List.length_take]
      exact min_le_left _ _
  · have hdef : gateInputReads st gid g.gridX g.gridY =
        List.filterMap (fun p : Int × Int => gateInputReadSpec st gid p.1 p.2)
          [(g.gridX - 1, g.gridY), (g.gridX - 1, g.gridY + 2)] := rfl
    rw [hdef, filterMap_pair]

/-- The 2-cell-tall AND gate of the C2 counterexample, anchored at (1, 0)
so its footprint is cells (1, 0) and (1, 1). -/
def c2G : Component := { id := 0, ctype := .andGate, gridX := 1, gridY := 0, gridH := 2 }

/-- A powered wire at (0, 1), immediately left of the gate's bottom cell. -/
def c2W : Component := { id := 1, ctype := .wire, gridX := 0, gridY := 1, powered := true }

/-- Grid with the gate occupying (1,0)-(1,1) and the wire at (0,1). -/
def c2St : Circuit :=
  { cols := 2, rows := 2,
    cellFn := fun x y =>
      if x = 1 ∧ y = 0 then some 0
      else if x = 1 ∧ y = 1 then some 0
      else if x = 0 ∧ y = 1 then some 1
      else none,
    comps := [c2G, c2W], powerSources := [] }

/-- C2 counterexample: the component immediately left of the 2-cell-tall
gate's bottom cell is a powered wire, yet after the gate input collection
phase the gate's inputs list is empty — the claimed read of the
left-of-bottom cell (0, 1) never happens, because the code reads
`(gridX - 1, gridY + 2)` instead of `(gridX - 1, gridY + 1)`. -/
theorem claim_C2_counterexample :
    c2G.gridH = 2 ∧
    getCellId c2St 1 1 = some c2G.id ∧
    getCellId c2St 0 1 = some c2W.id ∧
    c2W.powered = true ∧
    lookupC (gateEvalPhase c2St) 0 = some c2G ∧
    c2G.inputs = [] := by
  refine ⟨rfl, by decide, by decide, rfl, by decide, rfl⟩

theorem claim_C2_amended_witness :
    (∃ g', lookupC (processGate c2St 0) 0 = some g' ∧
      g' = updateComp { c2G with inputs := (gateInputReads c2St 0 c2G.gridX c2G.gridY).take 2 } ∧
      g'.inputs = (gateInputReads c2St 0 c2G.gridX c2G.gridY).take 2 ∧
      g'.inputs.length ≤ 2) ∧
    gateInputReads c2St 0 c2G.gridX c2G.gridY =
      (gateInputReadSpec c2St 0 (c2G.gridX - 1) c2G.gridY).toList ++
        (gateInputReadSpec c2St 0 (c2G.gridX - 1) (c2G.gridY + 2)).toList ∧
    gateEvalPhase c2St = (gateIds c2St).foldl processGate c2St :=
  claim_C2_amended c2St 0 c2G (by decide)

/-! ### Grid lemmas -/

namespace Grid

theorem orOne_pos (n : Nat) : 0 < orOne n := by
  unfold orOne
  split <;> omega

theorem setCell_dims (g : Grid) (x y : Int) (v : Option Component) :
    (g.setCell x y v).cols = g.cols ∧ (g.setCell x y v).rows = g.rows := ⟨rfl, rfl⟩

theorem isValid_eq_of_dims {g1 g2 : Grid} (hc : g1.cols = g2.cols) (hr : g1.rows = g2.rows)
    (p q : Int) : g1.isValidPosition p q = g2.isValidPosition p q := by
  unfold isValidPosition
  rw [hc, hr]

theorem isAreaEmpty_iff (g : Grid) (x y : Int) (w h : Nat) :
    isAreaEmpty g x y w h = true ↔
      ∀ j, j < h → ∀ i, i < w → isEmpty g (x + (i : Int)) (y + (j : Int)) = true := by
  unfold isAreaEmpty
  simp [List.all_eq_true, List.mem_range]

theorem isEmpty_parts {g : Grid} {x y : Int} (h : isEmpty g x y = true) :
    g.isValidPosition x y = true ∧ g.cells x y = none := by
  unfold isEmpty at h
  by_cases hv : g.isValidPosition x y = true
  · rw [if_pos hv] at h
    exact ⟨hv, Option.isNone_iff_eq_none.mp h⟩
  · rw [if_neg hv] at h
    cases h

theorem int_rect_mem {x p : Int} {w : Nat} (h1 : x ≤ p) (h2 : p < x + (w : Int)) :
    ∃ i : Nat, i < w ∧ p = x + (i : Int) :=
  ⟨(p - x).toNat, by omega, by omega⟩

theorem writeRow_cells (v : Option Component) (x yj : Int) :
    ∀ (w : Nat) (gg : Grid) (p q : Int),
      ((List.range w).foldl (fun acc2 i => acc2.setCell (x + (i : Int)) yj v) gg).cells p q =
        if x ≤ p ∧ p < x + (w : Int) ∧ q = yj then v else gg.cells p q := by
  intro w
  induction w with
  | zero =>
      intro gg p q
      simp only [List.range_zero, List.foldl_nil]
      rw [if_neg]
      rintro ⟨h1, h2, _⟩
      omega
  | succ w ih =>
      intro gg p q
      rw [List.range_succ, List.foldl_append]
      simp only [List.foldl_cons, List.foldl_nil]
      show (if p = x + (w : Int) ∧ q = yj then v else
        ((List.range w).foldl (fun acc2 i => acc2.setCell (x + (i : Int)) yj v) gg).cells p q) = _
      by_cases hpq : p = x + (w : Int) ∧ q = yj
      · rw [if_pos hpq, if_pos ⟨by omega, by omega, hpq.2⟩]
      · rw [if_neg hpq, ih]
        by_cases h2 : x ≤ p ∧ p < x + (w : Int) ∧ q = yj
        · rw [if_pos h2, if_pos ⟨h2.1, by omega, h2.2.2⟩]
        · rw [if_neg h2, if_neg]
          rintro ⟨ha, hb, hq⟩
          rcases lt_or_eq_of_le (Int.lt_add_one_iff.mp (by omega : p < x + (w : Int) + 1)) with hlt | heq
          · exact h2 ⟨ha, hlt, hq⟩
          · exact hpq ⟨heq, hq⟩

theorem writeRow_dims (v : Option Component) (x yj : Int) (w : Nat) (gg : Grid) :
    ((List.range w).foldl (fun acc2 i => acc2.setCell (x + (i : Int)) yj v) gg).cols = gg.cols ∧
    ((List.range w).foldl (fun acc2 i => acc2.setCell (x + (i : Int)) yj v) gg).rows = gg.rows :=
  foldl_inv _ (fun t : Grid => t.cols = gg.cols ∧ t.rows = gg.rows) (List.range w) gg
    ⟨rfl, rfl⟩ (fun t i _ ht => ht)

theorem writeRect_cells (g : Grid) (x y : Int) (w h : Nat) (v : Option Component) (p q : Int) :
    (writeRect g x y w h v).cells p q =
      if x ≤ p ∧ p < x + (w : Int) ∧ y ≤ q ∧ q < y + (h : Int) then v else g.cells p q := by
  unfold writeRect
  induction h with
  | zero =>
      simp only [List.range_zero, List.foldl_nil]
      rw [if_neg]
      rintro ⟨_, _, h3, h4⟩
      omega
  | succ h ih =>
      rw [List.range_succ, List.foldl_append]
      simp only [List.foldl_cons, List.foldl_nil]
      rw [writeRow_cells, ih]
      by_cases hrow : x ≤ p ∧ p < x + (w : Int) ∧ q = y + (h : Int)
      · rw [if_pos hrow, if_pos ⟨hrow.1, hrow.2.1, by omega, by omega⟩]
      · rw [if_neg hrow]
        by_cases hold : x ≤ p ∧ p < x + (w : Int) ∧ y ≤ q ∧ q < y + (h : Int)
        · rw [if_pos hold, if_pos ⟨hold.1, hold.2.1, hold.2.2.1, by omega⟩]
        · rw [if_neg hold, if_neg]
          rintro ⟨ha, hb, hc, hd⟩
          rcases lt_or_eq_of_le (Int.lt_add_one_iff.mp (by omega : q < y + (h : Int) + 1))
            with hlt | heq
          · exact hold ⟨ha, hb, hc, hlt⟩
          · exact hrow ⟨ha, hb, heq⟩

theorem writeRect_dims (g : Grid) (x y : Int) (w h : Nat) (v : Option Component) :
    (writeRect g x y w h v).cols = g.cols ∧ (writeRect g x y w h v).rows = g.rows := by
  unfold writeRect
  exact foldl_inv _ (fun t : Grid => t.cols = g.cols ∧ t.rows = g.rows) (List.range h) g
    ⟨rfl, rfl⟩ (fun t j _ ht => by
      have hw := writeRow_dims v x (y + (j : Int)) w t
      exact ⟨hw.1.trans ht.1, hw.2.trans ht.2⟩)

theorem clearRow_dims (x yj : Int) (w : Nat) (gg : Grid) :
    ((List.range w).foldl
      (fun acc2 (i : Nat) =>
        if acc2.isValidPosition (x + (i : Int)) yj = true
        then acc2.setCell (x + (i : Int)) yj none else acc2) gg).cols = gg.cols ∧
    ((List.range w).foldl
      (fun acc2 (i : Nat) =>
        if acc2.isValidPosition (x + (i : Int)) yj = true
        then acc2.setCell (x + (i : Int)) yj none else acc2) gg).rows = gg.rows :=
  foldl_inv _ (fun t : Grid => t.cols = gg.cols ∧ t.rows = gg.rows) (List.range w) gg
    ⟨rfl, rfl⟩ (fun t i _ ht => by
      dsimp only
      split
      · exact ht
      · exact ht)

theorem clearRow_cells (x yj : Int) :
    ∀ (w : Nat) (gg : Grid) (p q : Int),
      ((List.range w).foldl
        (fun acc2 (i : Nat) =>
          if acc2.isValidPosition (x + (i : Int)) yj = true
          then acc2.setCell (x + (i : Int)) yj none else acc2) gg).cells p q =
      if x ≤ p ∧ p < x + (w : Int) ∧ q = yj ∧ gg.isValidPosition p q = true
      then none else gg.cells p q := by
  intro w
  induction w with
  | zero =>
      intro gg p q
      simp only [List.range_zero, List.foldl_nil]
      rw [if_neg]
      rintro ⟨h1, h2, _⟩
      omega
  | succ w ih =>
      intro gg p q
      rw [List.range_succ, List.foldl_append]
      simp only [List.foldl_cons, List.foldl_nil]
      have hdims := clearRow_dims x yj w gg
      have ihg := ih gg p q
      rw [isValid_eq_of_dims hdims.1 hdims.2 (x + (w : Int)) yj]
      by_cases hv : gg.isValidPosition (x + (w : Int)) yj = true
      · rw [if_pos hv]
        show (if p = x + (w : Int) ∧ q = yj then none else _) = _
        by_cases hpq : p = x + (w : Int) ∧ q = yj
        · rw [if_pos hpq,
            if_pos ⟨by omega, by omega, hpq.2, by rw [hpq.1, hpq.2]; exact hv⟩]
        · rw [if_neg hpq, ihg]
          by_cases h2 : x ≤ p ∧ p < x + (w : Int) ∧ q = yj ∧ gg.isValidPosition p q = true
          · rw [if_pos h2, if_pos ⟨h2.1, by omega, h2.2.2⟩]
          · rw [if_neg h2, if_neg]
            rintro ⟨ha, hb, hq, hvd⟩
            rcases lt_or_eq_of_le (Int.lt_add_one_iff.mp (by omega : p < x + (w : Int) + 1))
              with hlt | heq
            · exact h2 ⟨ha, hlt, hq, hvd⟩
            · exact hpq ⟨heq, hq⟩
      · rw [if_neg hv, ihg]
        by_cases h2 : x ≤ p ∧ p < x + (w : Int) ∧ q = yj ∧ gg.isValidPosition p q = true
        · rw [if_pos h2, if_pos ⟨h2.1, by omega, h2.2.2⟩]
        · rw [if_neg h2, if_neg]
          rintro ⟨ha, hb, hq, hvd⟩
          rcases lt_or_eq_of_le (Int.lt_add_one_iff.mp (by omega : p < x + (w : Int) + 1))
            with hlt | heq
          · exact h2 ⟨ha, hlt, hq, hvd⟩
          · rw [heq, hq] at hvd
            exact hv hvd

theorem clearRect_dims (x y : Int) (h w : Nat) (g : Grid) :
    ((List.range h).foldl
      (fun acc (j : Nat) =>
        (List.range w).foldl
          (fun acc2 (i : Nat) =>
            if acc2.isValidPosition (x + (i : Int)) (y + (j : Int)) = true
            then acc2.setCell (x + (i : Int)) (y + (j : Int)) none else acc2) acc) g).cols
      = g.cols ∧
    ((List.range h).foldl
      (fun acc (j : Nat) =>
        (List.range w).foldl
          (fun acc2 (i : Nat) =>
            if acc2.isValidPosition (x + (i : Int)) (y + (j : Int)) = true
            then acc2.setCell (x + (i : Int)) (y + (j : Int)) none else acc2) acc) g).rows
      = g.rows :=
  foldl_inv _ (fun t : Grid => t.cols = g.cols ∧ t.rows = g.rows) (List.range h) g
    ⟨rfl, rfl⟩ (fun t j _ ht => by
      have hr := clearRow_dims x (y + (j : Int)) w t
      exact ⟨hr.1.trans ht.1, hr.2.trans ht.2⟩)

theorem clearRect_cells (x y : Int) :
    ∀ (h w : Nat) (g : Grid) (p q : Int),
      ((List.range h).foldl
        (fun acc (j : Nat) =>
          (List.range w).foldl
            (fun acc2 (i : Nat) =>
              if acc2.isValidPosition (x + (i : Int)) (y + (j : Int)) = true
              then acc2.setCell (x + (i : Int)) (y + (j : Int)) none else acc2) acc) g).cells p q
      = if x ≤ p ∧ p < x + (w : Int) ∧ y ≤ q ∧ q < y + (h : Int) ∧
            g.isValidPosition p q = true
        then none else g.cells p q := by
  intro h
  induction h with
  | zero =>
      intro w g p q
      simp only [List.range_zero, List.foldl_nil]
      rw [if_neg]
      rintro ⟨_, _, h3, h4, _⟩
      omega
  | succ h ihh =>
      intro w g p q
      rw [List.range_succ, List.foldl_append]
      simp only [List.foldl_cons, List.foldl_nil]
      have hdims := clearRect_dims x y h w g
      rw [clearRow_cells x (y + (h : Int)) w _ p q,
        isValid_eq_of_dims hdims.1 hdims.2 p q, ihh w g p q]
      by_cases hrow : x ≤ p ∧ p < x + (w : Int) ∧ q = y + (h : Int) ∧
          g.isValidPosition p q = true
      · rw [if_pos hrow, if_pos ⟨hrow.1, hrow.2.1, by omega, by omega, hrow.2.2.2⟩]
      · rw [if_neg hrow]
        by_cases hold : x ≤ p ∧ p < x + (w : Int) ∧ y ≤ q ∧ q < y + (h : Int) ∧
            g.isValidPosition p q = true
        · rw [if_pos hold, if_pos ⟨hold.1, hold.2.1, hold.2.2.1, by omega, hold.2.2.2.2⟩]
        · rw [if_neg hold, if_neg]
          rintro ⟨ha, hb, hc2, hd, hv⟩
          rcases lt_or_eq_of_le (Int.lt_add_one_iff.mp (by omega : q < y + (h : Int) + 1))
            with hlt | heq
          · exact hold ⟨ha, hb, hc2, hlt, hv⟩
          · exact hrow ⟨ha, hb, heq, hv⟩

theorem clearFootprint_cells (g : Grid) (c : Component) (p q : Int) :
    (clearFootprint g c).cells p q =
      if c.gridX ≤ p ∧ p < c.gridX + (orOne c.gridW : Int) ∧
          c.gridY ≤ q ∧ q < c.gridY + (orOne c.gridH : Int) ∧
          g.isValidPosition p q = true
      then none else g.cells p q :=
  clearRect_cells c.gridX c.gridY (orOne c.gridH) (orOne c.gridW) g p q

end Grid

theorem placeComponent_fail (g : Grid) (c : Component) (gx gy : Int)
    (h : Grid.isAreaEmpty g gx gy (Grid.orOne c.gridW) (Grid.orOne c.gridH) = false) :
    Grid.placeComponent g c gx gy = (g, c, false) := by
  simp only [Grid.placeComponent]
  rw [h]
  simp

theorem placeComponent_succ (g : Grid) (c : Component) (gx gy : Int)
    (hAE : Grid.isAreaEmpty g gx gy (Grid.orOne c.gridW) (Grid.orOne c.gridH) = true) :
    Grid.placeComponent g c gx gy =
      (Grid.writeRect g gx gy (Grid.orOne c.gridW) (Grid.orOne c.gridH)
        (some { c with
                gridX := gx, gridY := gy,
                x := gx * (g.gridSize : Int), y := gy * (g.gridSize : Int) }),
       { c with
         gridX := gx, gridY := gy,
         x := gx * (g.gridSize : Int), y := gy * (g.gridSize : Int) }, true) := by
  simp only [Grid.placeComponent]
  rw [hAE]
  simp

/-- C6: placement fails and mutates nothing — grid cells, stored grid and
pixel coordinates all unchanged — whenever some footprint cell is out of
bounds or already occupied. -/
theorem claim_C6 (g : Grid) (c : Component) (gx gy : Int)
    (hbad : ∃ j, j < Grid.orOne c.gridH ∧ ∃ i, i < Grid.orOne c.gridW ∧
      (Grid.isValidPosition g (gx + (i : Int)) (gy + (j : Int)) = false ∨
        g.cells (gx + (i : Int)) (gy + (j : Int)) ≠ none)) :
    Grid.placeComponent g c gx gy = (g, c, false) := by
  obtain ⟨j, hj, i, hi, hcase⟩ := hbad
  have hne : Grid.isEmpty g (gx + (i : Int)) (gy + (j : Int)) = false := by
    unfold Grid.isEmpty
    rcases hcase with hv | hocc
    · rw [if_neg (by rw [hv]; exact Bool.false_ne_true)]
    · by_cases hvp : Grid.isValidPosition g (gx + (i : Int)) (gy + (j : Int)) = true
      · rw [if_pos hvp]
        cases hcell : g.cells (gx + (i : Int)) (gy + (j : Int)) with
        | none => exact absurd hcell hocc
        | some d => rfl
      · rw [if_neg hvp]
  have hAE : Grid.isAreaEmpty g gx gy (Grid.orOne c.gridW) (Grid.orOne c.gridH) = false := by
    cases hb : Grid.isAreaEmpty g gx gy (Grid.orOne c.gridW) (Grid.orOne c.gridH) with
    | false => rfl
    | true =>
        have := (Grid.isAreaEmpty_iff g gx gy _ _).mp hb j hj i hi
        rw [hne] at this
        cases this
  exact placeComponent_fail g c gx gy hAE

/-- C7: removal queried at any cell of a component's footprint (origin or
not) returns that component and clears exactly the cells of the occupant's
own stored footprint, leaving all other cells untouched; removal at an
empty or out-of-bounds cell returns nothing and changes nothing. -/
theorem claim_C7 (g : Grid) (qx qy : Int) (c : Component)
    (hocc : Grid.getComponent g qx qy = some c) :
    (Grid.removeComponent g qx qy).2 = some c ∧
    (∀ p q : Int,
      c.gridX ≤ p → p < c.gridX + (Grid.orOne c.gridW : Int) →
      c.gridY ≤ q → q < c.gridY + (Grid.orOne c.gridH : Int) →
      Grid.isValidPosition g p q = true →
      (Grid.removeComponent g qx qy).1.cells p q = none) ∧
    (∀ p q : Int,
      ¬(c.gridX ≤ p ∧ p < c.gridX + (Grid.orOne c.gridW : Int) ∧
        c.gridY ≤ q ∧ q < c.gridY + (Grid.orOne c.gridH : Int)) →
      (Grid.removeComponent g qx qy).1.cells p q = g.cells p q) ∧
    (∀ a b : Int, Grid.getComponent g a b = none → Grid.removeComponent g a b = (g, none)) := by
  have hv : Grid.isValidPosition g qx qy = true ∧ g.cells qx qy = some c := by
    unfold Grid.getComponent at hocc
    by_cases hvp : Grid.isValidPosition g qx qy = true
    · rw [if_pos hvp] at hocc
      exact ⟨hvp, hocc⟩
    · rw [if_neg hvp] at hocc
      cases hocc
  have hrm : Grid.removeComponent g qx qy = (Grid.clearFootprint g c, some c) := by
    unfold Grid.removeComponent
    rw [hv.1]
    rw [if_neg (by simp), hv.2]
  refine ⟨by rw [hrm], ?_, ?_, ?_⟩
  · intro p q h1 h2 h3 h4 h5
    rw [hrm]
    show (Grid.clearFootprint g c).cells p q = none
    rw [Grid.clearFootprint_cells, if_pos ⟨h1, h2, h3, h4, h5⟩]
  · intro p q hout
    rw [hrm]
    show (Grid.clearFootprint g c).cells p q = g.cells p q
    rw [Grid.clearFootprint_cells, if_neg]
    rintro ⟨ha, hb, hc2, hd, _⟩
    exact hout ⟨ha, hb, hc2, hd⟩
  · intro a b hnone
    unfold Grid.getComponent at hnone
    unfold Grid.removeComponent
    by_cases hvp : Grid.isValidPosition g a b = true
    · rw [if_pos hvp] at hnone
      rw [if_neg (by rw [hvp]; exact Bool.true_eq_false ▸ (by simp)), hnone]
    · have hvf : Grid.isValidPosition g a b = false := by
        cases hb2 : Grid.isValidPosition g a b with
        | false => rfl
        | true => exact absurd hb2 hvp
      rw [hvf]
      rw [if_pos rfl]

/-- C8: a successful placement followed by removal at the origin cell
returns the same (updated) component object and restores every grid cell to
its pre-placement contents. -/
theorem claim_C8 (g : Grid) (c : Component) (gx gy : Int)
    (hsucc : (Grid.placeComponent g c gx gy).2.2 = true) :
    (Grid.removeComponent (Grid.placeComponent g c gx gy).1 gx gy).2 =
      some (Grid.placeComponent g c gx gy).2.1 ∧
    (Grid.placeComponent g c gx gy).2.1.id = c.id ∧
    (Grid.placeComponent g c gx gy).2.1.ctype = c.ctype ∧
    (∀ p q : Int,
      (Grid.removeComponent (Grid.placeComponent g c gx gy).1 gx gy).1.cells p q =
        g.cells p q) := by
  have hAE : Grid.isAreaEmpty g gx gy (Grid.orOne c.gridW) (Grid.orOne c.gridH) = true := by
    cases hb : Grid.isAreaEmpty g gx gy (Grid.orOne c.gridW) (Grid.orOne c.gridH) with
    | true => rfl
    | false =>
        rw [placeComponent_fail g c gx gy hb] at hsucc
        cases hsucc
  have hEmpty : ∀ p q : Int,
      gx ≤ p → p < gx + (Grid.orOne c.gridW : Int) →
      gy ≤ q → q < gy + (Grid.orOne c.gridH : Int) →
      Grid.isValidPosition g p q = true ∧ g.cells p q = none := by
    intro p q h1 h2 h3 h4
    obtain ⟨i, hi, rfl⟩ := Grid.int_rect_mem h1 h2
    obtain ⟨j, hj, rfl⟩ := Grid.int_rect_mem h3 h4
    exact Grid.isEmpty_parts ((Grid.isAreaEmpty_iff g gx gy _ _).mp hAE j hj i hi)
  rw [placeComponent_succ g c gx gy hAE]
  set c' : Component :=
    { c with
      gridX := gx, gridY := gy,
      x := gx * (g.gridSize : Int), y := gy * (g.gridSize : Int) } with hc'
  set g1 : Grid :=
    Grid.writeRect g gx gy (Grid.orOne c.gridW) (Grid.orOne c.gridH) (some c') with hg1
  have hdims : g1.cols = g.cols ∧ g1.rows = g.rows :=
    Grid.writeRect_dims g gx gy (Grid.orOne c.gridW) (Grid.orOne c.gridH) (some c')
  have hvalid1 : ∀ p q : Int, Grid.isValidPosition g1 p q = Grid.isValidPosition g p q :=
    fun p q => Grid.isValid_eq_of_dims hdims.1 hdims.2 p q
  have hcells1 : ∀ p q : Int, g1.cells p q =
      (if gx ≤ p ∧ p < gx + (Grid.orOne c.gridW : Int) ∧
          gy ≤ q ∧ q < gy + (Grid.orOne c.gridH : Int)
       then some c' else g.cells p q) :=
    fun p q => Grid.writeRect_cells g gx gy _ _ (some c') p q
  have hwpos := Grid.orOne_pos c.gridW
  have hhpos := Grid.orOne_pos c.gridH
  have hvg := hEmpty gx gy (le_refl gx) (by omega) (le_refl gy) (by omega)
  have hocc1 : g1.cells gx gy = some c' := by
    rw [hcells1, if_pos ⟨le_refl gx, by omega, le_refl gy, by omega⟩]
  have hrm : Grid.removeComponent g1 gx gy = (Grid.clearFootprint g1 c', some c') := by
    unfold Grid.removeComponent
    rw [hvalid1 gx gy, hvg.1]
    rw [if_neg (by simp), hocc1]
  refine ⟨by rw [hrm], rfl, rfl, ?_⟩
  intro p q
  rw [hrm]
  show (Grid.clearFootprint g1 c').cells p q = g.cells p q
  rw [Grid.clearFootprint_cells]
  by_cases hin : gx ≤ p ∧ p < gx + (Grid.orOne c.gridW : Int) ∧
      gy ≤ q ∧ q < gy + (Grid.orOne c.gridH : Int)
  · have hpq := hEmpty p q hin.1 hin.2.1 hin.2.2.1 hin.2.2.2
    rw [if_pos ⟨hin.1, hin.2.1, hin.2.2.1, hin.2.2.2, by rw [hvalid1]; exact hpq.1⟩]
    exact hpq.2.symm
  · rw [if_neg ?_, hcells1, if_neg hin]
    rintro ⟨ha, hb, hc2, hd, _⟩
    exact hin ⟨ha, hb, hc2, hd⟩

/-- An occupied 2x2 grid (a wire sits at the origin) for the C6 witness. -/
def g6 : Grid :=
  { gridSize := 20, cols := 2, rows := 2,
    cells := fun x y => if x = 0 ∧ y = 0 then some { id := 9, ctype := .wire } else none }

/-- The LED whose placement at the occupied origin must fail. -/
def c6 : Component := { id := 1, ctype := .led }

theorem claim_C6_witness : Grid.placeComponent g6 c6 0 0 = (g6, c6, false) :=
  claim_C6 g6 c6 0 0 ⟨0, by decide, 0, by decide, Or.inr (by decide)⟩

/-- The 2-cell-tall gate occupying cells (0,0) and (0,1) of the C7 witness
grid. -/
def c7g : Component := { id := 3, ctype := .andGate, gridX := 0, gridY := 0, gridH := 2 }

/-- A 1x2 grid whose two cells both hold the gate. -/
def g7 : Grid :=
  { gridSize := 20, cols := 1, rows := 2,
    cells := fun x y => if x = 0 ∧ (y = 0 ∨ y = 1) then some c7g else none }

theorem claim_C7_witness :
    (Grid.removeComponent g7 0 1).2 = some c7g ∧
    (∀ p q : Int,
      c7g.gridX ≤ p → p < c7g.gridX + (Grid.orOne c7g.gridW : Int) →
      c7g.gridY ≤ q → q < c7g.gridY + (Grid.orOne c7g.gridH : Int) →
      Grid.isValidPosition g7 p q = true →
      (Grid.removeComponent g7 0 1).1.cells p q = none) ∧
    (∀ p q : Int,
      ¬(c7g.gridX ≤ p ∧ p < c7g.gridX + (Grid.orOne c7g.gridW : Int) ∧
        c7g.gridY ≤ q ∧ q < c7g.gridY + (Grid.orOne c7g.gridH : Int)) →
      (Grid.removeComponent g7 0 1).1.cells p q = g7.cells p q) ∧
    (∀ a b : Int, Grid.getComponent g7 a b = none → Grid.removeComponent g7 a b = (g7, none)) :=
  claim_C7 g7 0 1 c7g (by decide)

/-- An empty 1x2 grid for the C8 witness. -/
def g8 : Grid := { gridSize := 20, cols := 1, rows := 2, cells := fun _ _ => none }

/-- The 2-cell-tall OR gate placed and removed in the C8 witness. -/
def c8 : Component := { id := 4, ctype := .orGate, gridH := 2 }

theorem claim_C8_witness :
    (Grid.removeComponent (Grid.placeComponent g8 c8 0 0).1 0 0).2 =
      some (Grid.placeComponent g8 c8 0 0).2.1 ∧
    (Grid.placeComponent g8 c8 0 0).2.1.id = c8.id ∧
    (Grid.placeComponent g8 c8 0 0).2.1.ctype = c8.ctype ∧
    (∀ p q : Int,
      (Grid.removeComponent (Grid.placeComponent g8 c8 0 0).1 0 0).1.cells p q =
        g8.cells p q) :=
  claim_C8 g8 c8 0 0 (by decide)

end CircuPlay
